import Mathlib

/-!
Verification of the orchestration and batching core of the
Automation-Marketing backend.

The development shallowly embeds the Python code of
`src/agents/content_agent.py`, `src/app/agents/campaign_orchestrator.py`
and the five sub-agents under `src/app/agents/`.  LLM calls and vector-DB
calls are modelled as oracles (explicit outcome parameters), so every
theorem quantifies over all behaviours of the external collaborators.

Python JSON values are modelled by the inductive type `Json`; the standard
library pair `json.dumps` / `json.loads` is modelled by an executable
serializer (`Json.dumpsL`) and recursive-descent parser (`loadsL`).
Numbers are restricted to integers (the orchestration layer never relies
on fractional values) and `dumps` emits non-ASCII characters literally
(`json.loads` accepts both the escaped and the literal form, so the
round-trip behaviour is unchanged).
-/

/-- A Python JSON value: the result type of `json.loads`.  Object fields are
kept in textual order; a duplicate key is resolved by `objLookup` below with
the last occurrence winning, matching the Python `dict` built by `json.loads`. -/
inductive Json where
  | null
  | bool (b : Bool)
  | num (n : Int)
  | str (s : String)
  | arr (elems : List Json)
  | obj (fields : List (String × Json))

mutual
def Json.beq : Json → Json → Bool
  | .null, .null => true
  | .bool a, .bool b => a == b
  | .num a, .num b => a == b
  | .str a, .str b => a == b
  | .arr a, .arr b => Json.beqArr a b
  | .obj a, .obj b => Json.beqObj a b
  | _, _ => false
def Json.beqArr : List Json → List Json → Bool
  | [], [] => true
  | a :: as, b :: bs => Json.beq a b && Json.beqArr as bs
  | _, _ => false
def Json.beqObj : List (String × Json) → List (String × Json) → Bool
  | [], [] => true
  | (k, v) :: as, (k2, v2) :: bs => k == k2 && Json.beq v v2 && Json.beqObj as bs
  | _, _ => false
end

mutual
theorem Json.eq_of_beq : ∀ {a b : Json}, Json.beq a b = true → a = b
  | .null, .null, _ => rfl
  | .bool a, .bool b, h => by simp [Json.beq] at h; simp [h]
  | .num a, .num b, h => by simp [Json.beq] at h; simp [h]
  | .str a, .str b, h => by simp [Json.beq] at h; simp [h]
  | .arr a, .arr b, h => by
      simp only [Json.beq] at h
      exact congrArg Json.arr (Json.eq_of_beqArr h)
  | .obj a, .obj b, h => by
      simp only [Json.beq] at h
      exact congrArg Json.obj (Json.eq_of_beqObj h)
theorem Json.eq_of_beqArr : ∀ {a b : List Json}, Json.beqArr a b = true → a = b
  | [], [], _ => rfl
  | a :: as, b :: bs, h => by
      simp only [Json.beqArr, Bool.and_eq_true] at h
      rw [Json.eq_of_beq h.1, Json.eq_of_beqArr h.2]
theorem Json.eq_of_beqObj : ∀ {a b : List (String × Json)}, Json.beqObj a b = true → a = b
  | [], [], _ => rfl
  | (k, v) :: as, (k2, v2) :: bs, h => by
      simp only [Json.beqObj, Bool.and_eq_true] at h
      obtain ⟨⟨h1, h2⟩, h3⟩ := h
      simp only [beq_iff_eq] at h1
      rw [Json.eq_of_beq h2, Json.eq_of_beqObj h3, h1]
end

mutual
theorem Json.beq_refl : ∀ (a : Json), Json.beq a a = true
  | .null => rfl
  | .bool a => by simp [Json.beq]
  | .num a => by simp [Json.beq]
  | .str a => by simp [Json.beq]
  | .arr a => by simp only [Json.beq]; exact Json.beqArr_refl a
  | .obj a => by simp only [Json.beq]; exact Json.beqObj_refl a
theorem Json.beqArr_refl : ∀ (a : List Json), Json.beqArr a a = true
  | [] => rfl
  | a :: as => by
      simp only [Json.beqArr, Bool.and_eq_true]
      exact ⟨Json.beq_refl a, Json.beqArr_refl as⟩
theorem Json.beqObj_refl : ∀ (a : List (String × Json)), Json.beqObj a a = true
  | [] => rfl
  | (k, v) :: as => by
      simp only [Json.beqObj, Bool.and_eq_true]
      exact ⟨⟨by simp, Json.beq_refl v⟩, Json.beqObj_refl as⟩
end

instance : DecidableEq Json := fun a b =>
  if h : Json.beq a b = true then isTrue (Json.eq_of_beq h)
  else isFalse (fun he => h (he ▸ Json.beq_refl a))

/-- The `dict.get(key, default)`-style lookup on an object field list.  On a
duplicate key the LAST binding wins, matching the dict `json.loads` builds. -/
def objLookup (fields : List (String × Json)) (key : String) : Option Json :=
  fields.foldl (fun acc kv => if kv.1 = key then some kv.2 else acc) none

/-- Exceptions the embedded Python code can raise. -/
inductive PyErr where
  | valueError (msg : String)
  | typeError (msg : String)
  | attributeError (msg : String)
  | zeroDivisionError (msg : String)
deriving DecidableEq

instance {ε α : Type} [DecidableEq ε] [DecidableEq α] : DecidableEq (Except ε α) := fun x y =>
  match x, y with
  | .ok a, .ok b =>
    if h : a = b then isTrue (by rw [h]) else isFalse (by intro he; cases he; exact h rfl)
  | .error a, .error b =>
    if h : a = b then isTrue (by rw [h]) else isFalse (by intro he; cases he; exact h rfl)
  | .ok _, .error _ => isFalse (by intro h; cases h)
  | .error _, .ok _ => isFalse (by intro h; cases h)

/-- The textual name Python would report for the type of a JSON value. -/
def pyTypeName : Json → String
  | .null => "NoneType"
  | .bool _ => "bool"
  | .num _ => "int"
  | .str _ => "str"
  | .arr _ => "list"
  | .obj _ => "dict"

/-! ## Character-level helpers for the embedded Python string operations -/

/-- The backquote character (written by code point to keep source plain). -/
def bq : Char := '\x60'

/-- Opening curly brace character. -/
def obrace : Char := '\x7b'

/-- Closing curly brace character. -/
def cbrace : Char := '\x7d'

/-- Whitespace stripped by Python `str.strip()` (the ASCII portion). -/
def pyIsSpace (c : Char) : Bool :=
  c == ' ' || c == '\t' || c == '\n' || c == '\x0d' || c == '\x0b' || c == '\x0c'

/-- ASCII decimal digit test. -/
def isDigitC (c : Char) : Bool := '0' ≤ c && c ≤ '9'

/-- Python `str.lower()` on one character (ASCII range). -/
def pyLowerChar (c : Char) : Char :=
  if 'A' ≤ c && c ≤ 'Z' then Char.ofNat (c.toNat + 32) else c

/-- Python `str.lower()` (ASCII model). -/
def pyLower (s : String) : String := String.mk (s.toList.map pyLowerChar)

/-- Drop from the right of a character list while the predicate holds. -/
def rdropWhileC (p : Char → Bool) (cs : List Char) : List Char :=
  (cs.reverse.dropWhile p).reverse

/-- Python `str.strip()` on a character list. -/
def pyStripL (cs : List Char) : List Char :=
  rdropWhileC pyIsSpace (cs.dropWhile pyIsSpace)

/-- Python `str.strip()`. -/
def pyStrip (s : String) : String := String.mk (pyStripL s.toList)

/-- Model of `re.sub(r"⟨fence⟩(?:json)?", "", raw)` where `⟨fence⟩` is three
backquotes: scan left to right, removing each three-backquote run together
with an immediately following `json` tag. -/
def removeFencesAux : Nat → List Char → List Char
  | 0, cs => cs
  | _ + 1, [] => []
  | f + 1, c :: rest =>
    if (c :: rest).take 3 = [bq, bq, bq] then
      if (rest.drop 2).take 4 = ['j', 's', 'o', 'n'] then
        removeFencesAux f ((rest.drop 2).drop 4)
      else removeFencesAux f (rest.drop 2)
    else c :: removeFencesAux f rest

def removeFences (cs : List Char) : List Char := removeFencesAux cs.length cs

/-- The cleaning chain of `ContentAgent._extract_json` (and each sub-agent
`_parse`): fence removal, strip, right-strip of backquotes, strip. -/
def cleanRaw (cs : List Char) : List Char :=
  pyStripL (rdropWhileC (fun c => c == bq) (pyStripL (removeFences cs)))

/-- Whether a character list contains a three-backquote run (a code-fence
marker the cleaning pass would remove). -/
def hasTripleBq : List Char → Bool
  | [] => false
  | c :: rest => (decide ((c :: rest).take 3 = [bq, bq, bq])) || hasTripleBq rest

/-- A string free of three-backquote runs: its serialized form survives the
fence-removal pass untouched. -/
def noFence (s : String) : Bool := !hasTripleBq s.toList

/-- A character that `str.strip()` keeps and the backquote right-strip keeps:
neither whitespace nor a backquote. -/
def edgeSafe (c : Char) : Bool := !pyIsSpace c && !(c == bq)

/-! ## Model of `json.dumps` (default separators) -/

/-- Decimal digit character for a value below ten. -/
def digitCh (n : Nat) : Char := Char.ofNat (48 + n)

/-- Lower-case hexadecimal digit character. -/
def hexDigCh (n : Nat) : Char :=
  if n < 10 then Char.ofNat (48 + n) else Char.ofNat (87 + n)

/-- Decimal digits of a natural number, most significant first, produced with
an explicit fuel so the definition is structural (hence kernel-reducible). -/
def natCharsAux : Nat → Nat → List Char
  | 0, _ => []
  | f + 1, n => if n < 10 then [digitCh n] else natCharsAux f (n / 10) ++ [digitCh (n % 10)]

/-- Decimal digits of a natural number, most significant first. -/
def natChars (n : Nat) : List Char := natCharsAux (n + 1) n

/-- Python `repr` of an integer: optional minus sign then decimal digits. -/
def intChars (i : Int) : List Char :=
  if i < 0 then '-' :: natChars i.natAbs else natChars i.natAbs

/-- JSON escaping of one character as `json.dumps` performs it (non-ASCII
characters are emitted literally, see the module comment). -/
def escChar (c : Char) : List Char :=
  if c = '\\' then ['\\', '\\']
  else if c = '"' then ['\\', '"']
  else if c = '\n' then ['\\', 'n']
  else if c = '\x0d' then ['\\', 'r']
  else if c = '\t' then ['\\', 't']
  else if c = '\x08' then ['\\', 'b']
  else if c = '\x0c' then ['\\', 'f']
  else if c.toNat < 32 then
    ['\\', 'u', '0', '0', hexDigCh (c.toNat / 16), hexDigCh (c.toNat % 16)]
  else [c]

/-- JSON escaping of a character list. -/
def escChars : List Char → List Char
  | [] => []
  | c :: cs => escChar c ++ escChars cs

/-- A JSON string literal: quote, escaped body, quote. -/
def strLit (s : String) : List Char := '"' :: (escChars s.toList ++ ['"'])

mutual
/-- `json.dumps` with the default separators, producing a character list. -/
def Json.dumpsL : Json → List Char
  | .null => "null".toList
  | .bool true => "true".toList
  | .bool false => "false".toList
  | .num i => intChars i
  | .str s => strLit s
  | .arr es => '[' :: (Json.dumpsElems es ++ [']'])
  | .obj ms => obrace :: (Json.dumpsMembers ms ++ [cbrace])
def Json.dumpsElems : List Json → List Char
  | [] => []
  | e :: es => Json.dumpsL e ++ Json.dumpsElemsSep es
def Json.dumpsElemsSep : List Json → List Char
  | [] => []
  | e :: es => ',' :: ' ' :: (Json.dumpsL e ++ Json.dumpsElemsSep es)
def Json.dumpsMembers : List (String × Json) → List Char
  | [] => []
  | (k, v) :: ms => strLit k ++ ':' :: ' ' :: (Json.dumpsL v ++ Json.dumpsMembersSep ms)
def Json.dumpsMembersSep : List (String × Json) → List Char
  | [] => []
  | (k, v) :: ms => ',' :: ' ' :: (strLit k ++ ':' :: ' ' :: (Json.dumpsL v ++ Json.dumpsMembersSep ms))
end

/-- `json.dumps` as a string. -/
def Json.dumps (j : Json) : String := String.mk (Json.dumpsL j)

/-! ## Model of `json.loads` (strict mode, integer numbers) -/

/-- Whitespace the JSON scanner skips between tokens. -/
def isJWs (c : Char) : Bool := c == ' ' || c == '\t' || c == '\n' || c == '\x0d'

/-- Skip inter-token whitespace. -/
def skipJWs (cs : List Char) : List Char := cs.dropWhile isJWs

/-- Numeric value of a decimal digit character. -/
def digitVal (c : Char) : Nat := c.toNat - 48

/-- Value of a run of decimal digit characters, most significant first. -/
def digitsVal (ds : List Char) : Nat :=
  ds.foldl (fun a c => a * 10 + digitVal c) 0

/-- Parse the integer part of a JSON number: `0`, or a nonzero digit followed
by a maximal digit run (the `(?:0|[1-9]\d*)` rule of the JSON grammar). -/
def parseNat : List Char → Option (Nat × List Char)
  | c :: cs =>
    if c = '0' then some (0, cs)
    else if isDigitC c then
      some (digitsVal (c :: cs.takeWhile isDigitC), cs.dropWhile isDigitC)
    else none
  | [] => none

/-- Parse a JSON integer: optional minus sign then an integer part. -/
def parseNum (cs : List Char) : Option (Int × List Char) :=
  match cs with
  | c :: rest =>
    if c = '-' then (parseNat rest).map (fun p => (-(p.1 : Int), p.2))
    else (parseNat (c :: rest)).map (fun p => ((p.1 : Int), p.2))
  | [] => none

/-- Value of a two-character escape after a backslash, if legal. -/
def escRev (c : Char) : Option Char :=
  if c = '"' then some '"'
  else if c = '\\' then some '\\'
  else if c = '/' then some '/'
  else if c = 'b' then some '\x08'
  else if c = 'f' then some '\x0c'
  else if c = 'n' then some '\n'
  else if c = 'r' then some '\x0d'
  else if c = 't' then some '\t'
  else none

/-- Value of a hexadecimal digit character, if it is one. -/
def hexVal (c : Char) : Option Nat :=
  if '0' ≤ c && c ≤ '9' then some (c.toNat - 48)
  else if 'a' ≤ c && c ≤ 'f' then some (c.toNat - 87)
  else if 'A' ≤ c && c ≤ 'F' then some (c.toNat - 55)
  else none

/-- Parse a JSON string body after the opening quote (strict mode: raw control
characters are rejected), returning the decoded characters and the remainder. -/
def parseStrBody : List Char → Option (List Char × List Char)
  | [] => none
  | c :: rest =>
    if c = '"' then some ([], rest)
    else if c = '\\' then
      match rest with
      | 'u' :: a :: b :: c2 :: d :: r2 => do
        let va ← hexVal a
        let vb ← hexVal b
        let vc ← hexVal c2
        let vd ← hexVal d
        let p ← parseStrBody r2
        pure (Char.ofNat (((va * 16 + vb) * 16 + vc) * 16 + vd) :: p.1, p.2)
      | e :: r2 =>
        match escRev e with
        | some ch => (parseStrBody r2).map (fun p => (ch :: p.1, p.2))
        | none => none
      | [] => none
    else if c.toNat < 32 then none
    else (parseStrBody rest).map (fun p => (c :: p.1, p.2))

mutual
/-- Parse one JSON value (fuel-indexed recursive descent). -/
def parseVal : Nat → List Char → Option (Json × List Char)
  | 0, _ => none
  | fuel + 1, cs =>
    match skipJWs cs with
    | 'n' :: 'u' :: 'l' :: 'l' :: r => some (.null, r)
    | 't' :: 'r' :: 'u' :: 'e' :: r => some (.bool true, r)
    | 'f' :: 'a' :: 'l' :: 's' :: 'e' :: r => some (.bool false, r)
    | '"' :: r => (parseStrBody r).map (fun p => (.str (String.mk p.1), p.2))
    | '[' :: r =>
      match skipJWs r with
      | ']' :: r2 => some (.arr [], r2)
      | r1 => (parseElems fuel r1).map (fun p => (.arr p.1, p.2))
    | c :: r =>
      if c = obrace then
        match skipJWs r with
        | c2 :: r2 => if c2 = cbrace then some (.obj [], r2)
                      else (parseMembers fuel (c2 :: r2)).map (fun p => (.obj p.1, p.2))
        | [] => none
      else if c = '-' || isDigitC c then
        (parseNum (c :: r)).map (fun p => (.num p.1, p.2))
      else none
    | [] => none
/-- Parse one or more comma-separated array elements up to the closing bracket. -/
def parseElems : Nat → List Char → Option (List Json × List Char)
  | 0, _ => none
  | fuel + 1, cs => do
    let (v, r) ← parseVal fuel cs
    match skipJWs r with
    | ',' :: r2 => (parseElems fuel r2).map (fun p => (v :: p.1, p.2))
    | ']' :: r2 => some ([v], r2)
    | _ => none
/-- Parse one or more comma-separated object members up to the closing brace. -/
def parseMembers : Nat → List Char → Option (List (String × Json) × List Char)
  | 0, _ => none
  | fuel + 1, cs =>
    match skipJWs cs with
    | '"' :: r => do
      let (kcs, r1) ← parseStrBody r
      match skipJWs r1 with
      | ':' :: r2 => do
        let (v, r3) ← parseVal fuel r2
        match skipJWs r3 with
        | ',' :: r4 => (parseMembers fuel r4).map (fun p => ((String.mk kcs, v) :: p.1, p.2))
        | c :: r4 => if c = cbrace then some ([(String.mk kcs, v)], r4) else none
        | [] => none
      | _ => none
    | _ => none
end

/-- `json.loads` on a character list: parse one document and require only
whitespace to remain (the `Extra data` check). -/
def loadsL (cs : List Char) : Option Json :=
  match parseVal (cs.length + 1) cs with
  | some (j, r) => if (skipJWs r).isEmpty then some j else none
  | none => none

/-- `json.loads`. -/
def loads (s : String) : Option Json := loadsL s.toList

/-! ## The Output Normalizer: `ContentAgent._extract_json` -/

/-- Model of `re.search` for the greedy all-matching brace pattern with
DOTALL: the substring from the first opening brace to the last closing brace,
when the latter follows the former. -/
def braceSlice (cs : List Char) : Option (List Char) :=
  let t := cs.dropWhile (fun c => !(c == obrace))
  let u := rdropWhileC (fun c => !(c == cbrace)) t
  if u.isEmpty then none else some u

/-- The diagnostic carried by the normalization failure: the first 500
characters of the original raw text. -/
def extractErrMsg (raw : String) : String :=
  "Could not parse model output as JSON:\n" ++ String.mk (raw.toList.take 500)

/-- `ContentAgent._extract_json`: clean the raw text, attempt a direct parse,
fall back to the brace-delimited slice, and otherwise raise `ValueError`. -/
def ContentAgent._extract_json (raw : String) : Except PyErr Json :=
  let cleaned := cleanRaw raw.toList
  match loadsL cleaned with
  | some j => .ok j
  | none =>
    match braceSlice cleaned with
    | some sub =>
      match loadsL sub with
      | some j => .ok j
      | none => .error (.valueError (extractErrMsg raw))
    | none => .error (.valueError (extractErrMsg raw))

/-! ## Round-trip: `loads` inverts `dumps`

The lemmas below establish `loads (Json.dumps j) = some j` for every value
`j`, the key fact behind the Output-Normalizer claims. -/

theorem digitCh_spec (k : Nat) (hk : k < 10) :
    digitVal (digitCh k) = k ∧ isDigitC (digitCh k) = true ∧ (digitCh k = '0' ↔ k = 0) := by
  interval_cases k <;> exact ⟨by decide, by decide, by decide⟩

theorem natCharsAux_congr : ∀ n : Nat, ∀ {f g : Nat}, n < f → n < g →
    natCharsAux f n = natCharsAux g n := by
  intro n
  induction n using Nat.strongRecOn with
  | _ n ih =>
    intro f g hf hg
    obtain ⟨f, rfl⟩ : ∃ k, f = k + 1 := ⟨f - 1, by omega⟩
    obtain ⟨g, rfl⟩ : ∃ k, g = k + 1 := ⟨g - 1, by omega⟩
    by_cases h10 : n < 10
    · simp [natCharsAux, h10]
    · simp only [natCharsAux, if_neg h10]
      rw [ih (n / 10) (by omega) (f := f) (g := g) (by omega) (by omega)]

theorem natChars_unfold (n : Nat) :
    natChars n = (if n < 10 then [] else natChars (n / 10)) ++ [digitCh (n % 10)] := by
  by_cases h10 : n < 10
  · simp only [natChars, natCharsAux, if_pos h10]
    rw [Nat.mod_eq_of_lt h10]
    simp
  · simp only [natChars, natCharsAux, if_neg h10]
    rw [natCharsAux_congr (n / 10) (f := n) (g := n / 10 + 1) (by omega) (by omega)]
    rfl

theorem natChars_ne_nil (n : Nat) : natChars n ≠ [] := by
  rw [natChars_unfold]; simp

theorem natChars_digits (n : Nat) : ∀ c ∈ natChars n, isDigitC c = true := by
  induction n using Nat.strongRecOn with
  | _ n ih =>
    rw [natChars_unfold]
    intro c hc
    rcases List.mem_append.mp hc with h | h
    · by_cases h10 : n < 10
      · simp [h10] at h
      · exact ih (n / 10) (by omega) c (by simpa [h10] using h)
    · rw [List.mem_singleton] at h
      subst h
      exact (digitCh_spec (n % 10) (Nat.mod_lt _ (by omega))).2.1

theorem digitsVal_natChars (n : Nat) : digitsVal (natChars n) = n := by
  induction n using Nat.strongRecOn with
  | _ n ih =>
    rw [natChars_unfold]
    unfold digitsVal
    rw [List.foldl_append]
    by_cases h10 : n < 10
    · simp only [if_pos h10, List.foldl_nil, List.foldl_cons]
      rw [(digitCh_spec (n % 10) (Nat.mod_lt _ (by omega))).1]
      omega
    · simp only [if_neg h10, List.foldl_cons, List.foldl_nil]
      have hv := ih (n / 10) (by omega)
      unfold digitsVal at hv
      rw [hv, (digitCh_spec (n % 10) (Nat.mod_lt _ (by omega))).1]
      omega

theorem natChars_head (n : Nat) :
    ∃ c t, natChars n = c :: t ∧ isDigitC c = true ∧ (1 ≤ n → c ≠ '0') := by
  induction n using Nat.strongRecOn with
  | _ n ih =>
    by_cases h10 : n < 10
    · refine ⟨digitCh n, [], ?_, (digitCh_spec n h10).2.1, ?_⟩
      · rw [natChars_unfold]
        simp only [if_pos h10, List.nil_append]
        rw [Nat.mod_eq_of_lt h10]
      · intro h1 hc
        exact absurd ((digitCh_spec n h10).2.2.mp hc) (by omega)
    · obtain ⟨c, t, hct, hd, hz⟩ := ih (n / 10) (by omega)
      refine ⟨c, t ++ [digitCh (n % 10)], ?_, hd, fun _ => hz (by omega)⟩
      rw [natChars_unfold]
      simp [h10, hct]

/-- Remainders that cannot extend a rendered number. -/
def notDigitStart : List Char → Bool
  | [] => true
  | c :: _ => !(isDigitC c)

theorem takeWhile_digit_run (ds : List Char) (hds : ∀ c ∈ ds, isDigitC c = true)
    (rest : List Char) (hrest : notDigitStart rest = true) :
    (ds ++ rest).takeWhile isDigitC = ds ∧ (ds ++ rest).dropWhile isDigitC = rest := by
  induction ds with
  | nil =>
    simp only [List.nil_append]
    match rest with
    | [] => exact ⟨rfl, rfl⟩
    | c :: t =>
      simp only [notDigitStart, Bool.not_eq_true'] at hrest
      simp [List.takeWhile_cons, List.dropWhile_cons, hrest]
  | cons c t ih =>
    have hc : isDigitC c = true := hds c (by simp)
    have := ih (fun x hx => hds x (by simp [hx]))
    simp [List.takeWhile_cons, List.dropWhile_cons, hc, this.1, this.2]

theorem parseNat_natChars (n : Nat) (rest : List Char) (hrest : notDigitStart rest = true) :
    parseNat (natChars n ++ rest) = some (n, rest) := by
  match n with
  | 0 =>
    have h0 : natChars 0 = ['0'] := by rw [natChars_unfold]; simp; decide
    rw [h0]
    simp [parseNat]
  | m + 1 =>
    obtain ⟨c, t, hct, hd, hz⟩ := natChars_head (m + 1)
    have hz' : c ≠ '0' := hz (by omega)
    rw [hct, List.cons_append]
    have htw := takeWhile_digit_run t (fun x hx => natChars_digits (m + 1) x (hct ▸ List.mem_cons_of_mem c hx)) rest hrest
    simp only [parseNat, if_neg hz', if_pos hd, htw.1, htw.2]
    have : digitsVal (c :: t) = m + 1 := by
      rw [← hct]; exact digitsVal_natChars (m + 1)
    rw [this]

theorem parseNum_intChars (i : Int) (rest : List Char) (hrest : notDigitStart rest = true) :
    parseNum (intChars i ++ rest) = some (i, rest) := by
  by_cases hi : i < 0
  · have h1 : intChars i = '-' :: natChars i.natAbs := by simp [intChars, hi]
    rw [h1, List.cons_append, parseNum.eq_def]
    simp only [if_pos rfl, if_true, parseNat_natChars i.natAbs rest hrest]
    simp only [Option.map_some']
    simp only [Option.some.injEq, Prod.mk.injEq, and_true]
    omega
  · have h1 : intChars i = natChars i.natAbs := by simp [intChars, hi]
    rw [h1]
    obtain ⟨c, t, hct, hd, _⟩ := natChars_head i.natAbs
    have hcm : c ≠ '-' := by
      intro he
      rw [he] at hd
      exact absurd hd (by decide)
    rw [hct, List.cons_append, parseNum.eq_def]
    simp only [if_neg hcm]
    rw [← List.cons_append, ← hct, parseNat_natChars i.natAbs rest hrest]
    simp only [Option.map_some']
    simp only [Option.some.injEq, Prod.mk.injEq, and_true]
    omega

theorem hexVal_hexDigCh (k : Nat) (hk : k < 16) : hexVal (hexDigCh k) = some k := by
  interval_cases k <;> decide

theorem parseStrBody_escChar (c : Char) (l : List Char) :
    parseStrBody (escChar c ++ l) = (parseStrBody l).map (fun p => (c :: p.1, p.2)) := by
  by_cases h1 : c = '\\'
  · subst h1; rw [show escChar '\\' = ['\\', '\\'] from rfl]
    rw [List.cons_append, List.cons_append, List.nil_append, parseStrBody.eq_def]
    simp [escRev]
  · by_cases h2 : c = '"'
    · subst h2; rw [show escChar '"' = ['\\', '"'] from rfl]
      rw [List.cons_append, List.cons_append, List.nil_append, parseStrBody.eq_def]
      simp [escRev]
    · by_cases h3 : c = '\n'
      · subst h3; rw [show escChar '\n' = ['\\', 'n'] from rfl]
        rw [List.cons_append, List.cons_append, List.nil_append, parseStrBody.eq_def]
        simp [escRev]
      · by_cases h4 : c = '\x0d'
        · subst h4; rw [show escChar '\x0d' = ['\\', 'r'] from rfl]
          rw [List.cons_append, List.cons_append, List.nil_append, parseStrBody.eq_def]
          simp [escRev]
        · by_cases h5 : c = '\t'
          · subst h5; rw [show escChar '\t' = ['\\', 't'] from rfl]
            rw [List.cons_append, List.cons_append, List.nil_append, parseStrBody.eq_def]
            simp [escRev]
          · by_cases h6 : c = '\x08'
            · subst h6; rw [show escChar '\x08' = ['\\', 'b'] from rfl]
              rw [List.cons_append, List.cons_append, List.nil_append, parseStrBody.eq_def]
              simp [escRev]
            · by_cases h7 : c = '\x0c'
              · subst h7; rw [show escChar '\x0c' = ['\\', 'f'] from rfl]
                rw [List.cons_append, List.cons_append, List.nil_append, parseStrBody.eq_def]
                simp [escRev]
              · by_cases h8 : c.toNat < 32
                · have hu : escChar c = ['\\', 'u', '0', '0',
                      hexDigCh (c.toNat / 16), hexDigCh (c.toNat % 16)] := by
                    simp [escChar, h1, h2, h3, h4, h5, h6, h7, h8]
                  rw [hu]
                  simp only [List.cons_append, List.nil_append]
                  rw [parseStrBody.eq_def]
                  simp only [if_neg (by decide : ¬('\\' : Char) = '"'), if_pos rfl]
                  rw [show hexVal '0' = some 0 from by decide,
                      hexVal_hexDigCh (c.toNat / 16) (by omega),
                      hexVal_hexDigCh (c.toNat % 16) (by omega)]
                  simp only [Option.bind_eq_bind, Option.some_bind]
                  have harith : (((0 * 16 + 0) * 16 + c.toNat / 16) * 16 + c.toNat % 16) = c.toNat := by
                    omega
                  rw [harith, Char.ofNat_toNat]
                  cases parseStrBody l <;> rfl
                · have hl : escChar c = [c] := by
                    simp [escChar, h1, h2, h3, h4, h5, h6, h7, h8]
                  rw [hl, List.cons_append, List.nil_append, parseStrBody.eq_def]
                  simp only [if_neg h2, if_neg h1, if_neg h8]

theorem parseStrBody_escChars (cs : List Char) : ∀ l : List Char,
    parseStrBody (escChars cs ++ '"' :: l) = some (cs, l) := by
  induction cs with
  | nil =>
    intro l
    rw [show escChars [] = [] from rfl, List.nil_append, parseStrBody.eq_def]
    simp
  | cons c t ih =>
    intro l
    rw [escChars, List.append_assoc, parseStrBody_escChar, ih]
    rfl

theorem stringMk_toList (s : String) : String.mk s.toList = s := rfl

theorem digit_rejects {c : Char} (h : isDigitC c = true) :
    isJWs c = false ∧ c ≠ 'n' ∧ c ≠ 't' ∧ c ≠ 'f' ∧ c ≠ '"' ∧ c ≠ '[' ∧ c ≠ obrace ∧
    c ≠ ']' ∧ c ≠ cbrace ∧ c ≠ ',' ∧ c ≠ '-' := by
  have hb : 48 ≤ c.toNat ∧ c.toNat ≤ 57 := by
    simp only [isDigitC, Bool.and_eq_true, decide_eq_true_eq] at h
    exact ⟨h.1, h.2⟩
  refine ⟨?_, ?_, ?_, ?_, ?_, ?_, ?_, ?_, ?_, ?_, ?_⟩
  · have h1 : c ≠ ' ' := fun he => by rw [he] at hb; revert hb; decide
    have h2 : c ≠ '\t' := fun he => by rw [he] at hb; revert hb; decide
    have h3 : c ≠ '\n' := fun he => by rw [he] at hb; revert hb; decide
    have h4 : c ≠ '\x0d' := fun he => by rw [he] at hb; revert hb; decide
    simp [isJWs, h1, h2, h3, h4]
  all_goals exact fun he => by rw [he] at hb; revert hb; decide

theorem skipJWs_not_ws {c : Char} (h : isJWs c = false) (t : List Char) :
    skipJWs (c :: t) = c :: t := by
  simp [skipJWs, List.dropWhile_cons, h]

theorem skipJWs_cons_sp (t : List Char) : skipJWs (' ' :: t) = skipJWs t := by
  simp [skipJWs, List.dropWhile_cons, isJWs]

theorem dumpsL_head (j : Json) :
    ∃ c t, Json.dumpsL j = c :: t ∧ isJWs c = false ∧ c ≠ ']' ∧ c ≠ cbrace ∧ c ≠ ',' := by
  cases j with
  | null => exact ⟨'n', _, rfl, by decide, by decide, by decide, by decide⟩
  | bool b =>
    cases b with
    | true => exact ⟨'t', _, rfl, by decide, by decide, by decide, by decide⟩
    | false => exact ⟨'f', _, rfl, by decide, by decide, by decide, by decide⟩
  | str s => exact ⟨'"', _, rfl, by decide, by decide, by decide, by decide⟩
  | arr es => exact ⟨'[', _, rfl, by decide, by decide, by decide, by decide⟩
  | obj ms => exact ⟨obrace, _, rfl, by decide, by decide, by decide, by decide⟩
  | num i =>
    by_cases hi : i < 0
    · refine ⟨'-', natChars i.natAbs, ?_, by decide, by decide, by decide, by decide⟩
      simp [Json.dumpsL, intChars, hi]
    · obtain ⟨c, t, hct, hd, _⟩ := natChars_head i.natAbs
      obtain ⟨hws, _, _, _, _, _, _, hrb, hrc, hcm, _⟩ := digit_rejects hd
      refine ⟨c, t, ?_, hws, hrb, hrc, hcm⟩
      simp [Json.dumpsL, intChars, hi, hct]

theorem dumpsL_ne_nil (j : Json) : Json.dumpsL j ≠ [] := by
  obtain ⟨c, t, hct, _⟩ := dumpsL_head j
  simp [hct]

theorem skipJWs_dumpsL (j : Json) (x : List Char) :
    skipJWs (Json.dumpsL j ++ x) = Json.dumpsL j ++ x := by
  obtain ⟨c, t, hct, hws, _⟩ := dumpsL_head j
  rw [hct, List.cons_append, skipJWs_not_ws hws]

theorem parseVal_skip_sp (f : Nat) (cs : List Char) :
    parseVal f (' ' :: cs) = parseVal f cs := by
  cases f with
  | zero => rfl
  | succ f =>
    simp only [parseVal]
    rw [skipJWs_cons_sp]

theorem parseElems_skip_sp (f : Nat) (cs : List Char) :
    parseElems f (' ' :: cs) = parseElems f cs := by
  cases f with
  | zero => rfl
  | succ f =>
    simp only [parseElems]
    rw [parseVal_skip_sp]

theorem parseMembers_skip_sp (f : Nat) (cs : List Char) :
    parseMembers f (' ' :: cs) = parseMembers f cs := by
  cases f with
  | zero => rfl
  | succ f =>
    simp only [parseMembers]
    rw [skipJWs_cons_sp]

theorem dumpsElemsSep_cons (e : Json) (es : List Json) :
    Json.dumpsElemsSep (e :: es) = ',' :: ' ' :: Json.dumpsElems (e :: es) := by
  rw [Json.dumpsElemsSep, Json.dumpsElems]

theorem dumpsMembersSep_cons (k : String) (v : Json) (ms : List (String × Json)) :
    Json.dumpsMembersSep ((k, v) :: ms) = ',' :: ' ' :: Json.dumpsMembers ((k, v) :: ms) := by
  rw [Json.dumpsMembersSep, Json.dumpsMembers]

theorem parseVal_other (f : Nat) (c0 : Char) (t : List Char)
    (hws : isJWs c0 = false) (hn : c0 ≠ 'n') (ht : c0 ≠ 't') (hf : c0 ≠ 'f')
    (hq : c0 ≠ '"') (hb : c0 ≠ '[') (ho : c0 ≠ obrace) :
    parseVal (f + 1) (c0 :: t)
      = if (c0 = '-' || isDigitC c0) then
          (parseNum (c0 :: t)).map (fun p => (Json.num p.1, p.2))
        else none := by
  simp only [parseVal]
  rw [skipJWs_not_ws hws]
  simp [hn, ht, hf, hq, hb, ho]

theorem parseVal_strBranch (f : Nat) (r : List Char) :
    parseVal (f + 1) ('"' :: r)
      = (parseStrBody r).map (fun p => (Json.str (String.mk p.1), p.2)) := by
  simp only [parseVal]
  rw [skipJWs_not_ws (c := '"') (by decide)]
  rfl

theorem parseVal_arrBranch (f : Nat) (r : List Char) :
    parseVal (f + 1) ('[' :: r)
      = (match skipJWs r with
          | ']' :: r2 => some (Json.arr [], r2)
          | r1 => (parseElems f r1).map (fun p => (Json.arr p.1, p.2))) := by
  simp only [parseVal]
  rw [skipJWs_not_ws (c := '[') (by decide)]
  rfl

theorem arrTail_other (f : Nat) (c : Char) (t : List Char) (hc : c ≠ ']') :
    (match c :: t with
      | ']' :: r2 => some (Json.arr [], r2)
      | r1 => (parseElems f r1).map (fun p => (Json.arr p.1, p.2)))
    = (parseElems f (c :: t)).map (fun p => (Json.arr p.1, p.2)) := by
  simp [hc]

theorem objTail_cons (f : Nat) (c2 : Char) (r2 : List Char) :
    (match c2 :: r2 with
      | c2 :: r2 => if c2 = cbrace then some (Json.obj [], r2)
                    else (parseMembers f (c2 :: r2)).map (fun p => (Json.obj p.1, p.2))
      | [] => none)
    = if c2 = cbrace then some (Json.obj [], r2)
      else (parseMembers f (c2 :: r2)).map (fun p => (Json.obj p.1, p.2)) := rfl

theorem parseVal_objBranch (f : Nat) (r : List Char) :
    parseVal (f + 1) (obrace :: r)
      = (match skipJWs r with
          | c2 :: r2 => if c2 = cbrace then some (Json.obj [], r2)
                        else (parseMembers f (c2 :: r2)).map (fun p => (Json.obj p.1, p.2))
          | [] => none) := by
  simp only [parseVal]
  rw [skipJWs_not_ws (c := obrace) (by decide)]
  rfl

theorem intChars_head (i : Int) :
    ∃ c t, intChars i = c :: t ∧ isJWs c = false ∧ c ≠ 'n' ∧ c ≠ 't' ∧ c ≠ 'f' ∧
      c ≠ '"' ∧ c ≠ '[' ∧ c ≠ obrace ∧ (c = '-' ∨ isDigitC c = true) := by
  by_cases hi : i < 0
  · exact ⟨'-', natChars i.natAbs, by simp [intChars, hi], by decide, by decide, by decide,
      by decide, by decide, by decide, by decide, Or.inl rfl⟩
  · obtain ⟨c, t, hct, hd, _⟩ := natChars_head i.natAbs
    obtain ⟨hws, hn, ht, hf, hq, hb, ho, _, _, _, _⟩ := digit_rejects hd
    exact ⟨c, t, by simp [intChars, hi, hct], hws, hn, ht, hf, hq, hb, ho, Or.inr hd⟩

theorem parseVal_num (f : Nat) (i : Int) (rest : List Char) (hrest : notDigitStart rest = true) :
    parseVal (f + 1) (intChars i ++ rest) = some (.num i, rest) := by
  obtain ⟨c, t, hct, hws, hn, ht, hf, hq, hb, ho, hg⟩ := intChars_head i
  have hg2 : (c = '-' || isDigitC c) = true := by
    rcases hg with h | h
    · simp [h]
    · simp [h]
  rw [hct, List.cons_append, parseVal_other f c _ hws hn ht hf hq hb ho, if_pos hg2,
      ← List.cons_append, ← hct, parseNum_intChars i rest hrest]
  rfl

theorem rt_all : ∀ fuel : Nat,
    (∀ (j : Json) (rest : List Char), (Json.dumpsL j).length < fuel →
      notDigitStart rest = true →
      parseVal fuel (Json.dumpsL j ++ rest) = some (j, rest)) ∧
    (∀ (e : Json) (es : List Json) (rest : List Char),
      (Json.dumpsElems (e :: es)).length + 1 < fuel →
      parseElems fuel (Json.dumpsElems (e :: es) ++ ']' :: rest) = some (e :: es, rest)) ∧
    (∀ (k : String) (v : Json) (ms : List (String × Json)) (rest : List Char),
      (Json.dumpsMembers ((k, v) :: ms)).length + 1 < fuel →
      parseMembers fuel (Json.dumpsMembers ((k, v) :: ms) ++ cbrace :: rest)
        = some ((k, v) :: ms, rest)) := by
  intro fuel
  induction fuel with
  | zero =>
    refine ⟨fun j rest h _ => absurd h (by omega), fun e es rest h => absurd h (by omega),
      fun k v ms rest h => absurd h (by omega)⟩
  | succ f ih =>
    obtain ⟨ihV, ihE, ihM⟩ := ih
    have hVstep : ∀ (j : Json) (rest : List Char), (Json.dumpsL j).length < f + 1 →
        notDigitStart rest = true →
        parseVal (f + 1) (Json.dumpsL j ++ rest) = some (j, rest) := by
      intro j rest hlen hrest
      cases j with
      | null =>
        rw [show Json.dumpsL .null = ['n', 'u', 'l', 'l'] from rfl]
        simp [parseVal, skipJWs, List.dropWhile_cons, isJWs]
      | bool b =>
        cases b with
        | true =>
          rw [show Json.dumpsL (.bool true) = ['t', 'r', 'u', 'e'] from rfl]
          simp [parseVal, skipJWs, List.dropWhile_cons, isJWs]
        | false =>
          rw [show Json.dumpsL (.bool false) = ['f', 'a', 'l', 's', 'e'] from rfl]
          simp [parseVal, skipJWs, List.dropWhile_cons, isJWs]
      | num i =>
        rw [show Json.dumpsL (.num i) = intChars i from by simp [Json.dumpsL]]
        exact parseVal_num f i rest hrest
      | str s =>
        rw [show Json.dumpsL (.str s) = '"' :: (escChars s.toList ++ ['"']) from
              by simp [Json.dumpsL, strLit]]
        rw [List.cons_append, List.append_assoc, List.singleton_append, parseVal_strBranch,
            parseStrBody_escChars]
        rfl
      | arr es =>
        cases es with
        | nil =>
          rw [show Json.dumpsL (.arr []) = ['[', ']'] from by
                simp [Json.dumpsL, Json.dumpsElems]]
          rw [List.cons_append, List.singleton_append, parseVal_arrBranch,
              skipJWs_not_ws (c := ']') (by decide)]
          rfl
        | cons e es =>
          rw [show Json.dumpsL (.arr (e :: es))
                = '[' :: (Json.dumpsElems (e :: es) ++ [']']) from by simp [Json.dumpsL]]
          rw [List.cons_append, List.append_assoc, List.singleton_append, parseVal_arrBranch]
          have hskip : skipJWs (Json.dumpsElems (e :: es) ++ ']' :: rest)
              = Json.dumpsElems (e :: es) ++ ']' :: rest := by
            rw [Json.dumpsElems, List.append_assoc]
            exact skipJWs_dumpsL e _
          rw [hskip]
          obtain ⟨c, t, hct, _, hrb, _, _⟩ := dumpsL_head e
          have hcons : Json.dumpsElems (e :: es) ++ ']' :: rest
              = c :: (t ++ (Json.dumpsElemsSep es ++ ']' :: rest)) := by
            rw [Json.dumpsElems, hct]
            simp [List.append_assoc]
          rw [hcons, arrTail_other f c _ hrb, ← hcons]
          have hbound : (Json.dumpsElems (e :: es)).length + 1 < f := by
            have : (Json.dumpsL (Json.arr (e :: es))).length
                = (Json.dumpsElems (e :: es)).length + 2 := by
              simp [Json.dumpsL]
            omega
          rw [ihE e es rest hbound]
          rfl
      | obj ms =>
        cases ms with
        | nil =>
          rw [show Json.dumpsL (.obj []) = [obrace, cbrace] from by
                simp [Json.dumpsL, Json.dumpsMembers]]
          rw [List.cons_append, List.singleton_append, parseVal_objBranch,
              skipJWs_not_ws (c := cbrace) (by decide)]
          rfl
        | cons m ms =>
          obtain ⟨k, v⟩ := m
          rw [show Json.dumpsL (.obj ((k, v) :: ms))
                = obrace :: (Json.dumpsMembers ((k, v) :: ms) ++ [cbrace]) from by
                simp [Json.dumpsL]]
          rw [List.cons_append, List.append_assoc, List.singleton_append, parseVal_objBranch]
          have hskip : skipJWs (Json.dumpsMembers ((k, v) :: ms) ++ cbrace :: rest)
              = Json.dumpsMembers ((k, v) :: ms) ++ cbrace :: rest := by
            rw [Json.dumpsMembers, strLit]
            simp only [List.cons_append, List.append_assoc]
            exact skipJWs_not_ws (c := '"') (by decide) _
          rw [hskip]
          have hcons : Json.dumpsMembers ((k, v) :: ms) ++ cbrace :: rest
              = '"' :: ((escChars k.toList ++ ['"']) ++
                  (':' :: ' ' :: (Json.dumpsL v ++ Json.dumpsMembersSep ms) ++ cbrace :: rest)) := by
            rw [Json.dumpsMembers, strLit]
            simp [List.append_assoc]
          rw [hcons, objTail_cons, if_neg (by decide : ¬(('"' : Char) = cbrace)), ← hcons]
          have hbound : (Json.dumpsMembers ((k, v) :: ms)).length + 1 < f := by
            have : (Json.dumpsL (Json.obj ((k, v) :: ms))).length
                = (Json.dumpsMembers ((k, v) :: ms)).length + 2 := by
              simp [Json.dumpsL]
            omega
          rw [ihM k v ms rest hbound]
          rfl
    refine ⟨hVstep, ?_, ?_⟩
    · -- parseElems at fuel f+1
      intro e es rest hlen
      have hlen2 : (Json.dumpsL e).length + (Json.dumpsElemsSep es).length + 1 < f + 1 := by
        have : (Json.dumpsElems (e :: es)).length
            = (Json.dumpsL e).length + (Json.dumpsElemsSep es).length := by
          simp [Json.dumpsElems]
        omega
      have hsafe : notDigitStart (Json.dumpsElemsSep es ++ ']' :: rest) = true := by
        cases es with
        | nil =>
          rw [show Json.dumpsElemsSep [] = [] from rfl, List.nil_append]
          rfl
        | cons x xs =>
          rw [dumpsElemsSep_cons, List.cons_append]
          rfl
      simp only [parseElems]
      rw [Json.dumpsElems, List.append_assoc,
          ihV e (Json.dumpsElemsSep es ++ ']' :: rest) (by omega) hsafe]
      simp only [Option.bind_eq_bind, Option.some_bind]
      cases es with
      | nil =>
        rw [show Json.dumpsElemsSep [] = [] from rfl, List.nil_append,
            skipJWs_not_ws (c := ']') (by decide)]
        rfl
      | cons x xs =>
        rw [dumpsElemsSep_cons]
        simp only [List.cons_append]
        rw [skipJWs_not_ws (c := ',') (by decide)]
        show Option.map (fun p => (e :: p.1, p.2))
            (parseElems f (' ' :: (Json.dumpsElems (x :: xs) ++ ']' :: rest)))
          = some (e :: x :: xs, rest)
        rw [parseElems_skip_sp]
        have hbound2 : (Json.dumpsElems (x :: xs)).length + 1 < f := by
          have h3 : (Json.dumpsElemsSep (x :: xs)).length
              = (Json.dumpsElems (x :: xs)).length + 2 := by
            rw [dumpsElemsSep_cons]; simp
          have he1 : (Json.dumpsL e).length ≠ 0 := by
            simp [dumpsL_ne_nil e]
          omega
        rw [ihE x xs rest hbound2]
        rfl
    · -- parseMembers at fuel f+1
      intro k v ms rest hlen
      have hlen2 : (escChars k.toList).length + 2 + 2 + (Json.dumpsL v).length
          + (Json.dumpsMembersSep ms).length + 1 < f + 1 := by
        have : (Json.dumpsMembers ((k, v) :: ms)).length
            = (escChars k.toList).length + 2 + 2 + (Json.dumpsL v).length
              + (Json.dumpsMembersSep ms).length := by
          rw [Json.dumpsMembers, strLit]
          simp
          omega
        omega
      have hsafe : notDigitStart (Json.dumpsMembersSep ms ++ cbrace :: rest) = true := by
        cases ms with
        | nil =>
          rw [show Json.dumpsMembersSep [] = [] from rfl, List.nil_append]
          rfl
        | cons m ms2 =>
          obtain ⟨k2, v2⟩ := m
          rw [dumpsMembersSep_cons, List.cons_append]
          rfl
      simp only [parseMembers]
      have hcons : Json.dumpsMembers ((k, v) :: ms) ++ cbrace :: rest
          = '"' :: (escChars k.toList ++ '"' ::
              (':' :: ' ' :: (Json.dumpsL v ++ (Json.dumpsMembersSep ms ++ cbrace :: rest)))) := by
        rw [Json.dumpsMembers, strLit]
        simp [List.append_assoc]
      rw [hcons, skipJWs_not_ws (c := '"') (by decide)]
      show (do
          let p1 ← parseStrBody (escChars k.toList ++ '"' ::
              (':' :: ' ' :: (Json.dumpsL v ++ (Json.dumpsMembersSep ms ++ cbrace :: rest))))
          match skipJWs p1.2 with
          | ':' :: r2 => do
            let p2 ← parseVal f r2
            match skipJWs p2.2 with
            | ',' :: r4 =>
              (parseMembers f r4).map (fun p => ((String.mk p1.1, p2.1) :: p.1, p.2))
            | c :: r4 => if c = cbrace then some ([(String.mk p1.1, p2.1)], r4) else none
            | [] => none
          | _ => none)
        = some ((k, v) :: ms, rest)
      rw [parseStrBody_escChars]
      simp only [Option.bind_eq_bind, Option.some_bind]
      rw [skipJWs_not_ws (c := ':') (by decide)]
      show (do
          let p2 ← parseVal f (' ' :: (Json.dumpsL v ++ (Json.dumpsMembersSep ms ++ cbrace :: rest)))
          match skipJWs p2.2 with
          | ',' :: r4 =>
            (parseMembers f r4).map (fun p => ((String.mk k.toList, p2.1) :: p.1, p.2))
          | c :: r4 => if c = cbrace then some ([(String.mk k.toList, p2.1)], r4) else none
          | [] => none)
        = some ((k, v) :: ms, rest)
      rw [parseVal_skip_sp,
          ihV v (Json.dumpsMembersSep ms ++ cbrace :: rest) (by omega) hsafe]
      simp only [Option.bind_eq_bind, Option.some_bind]
      cases ms with
      | nil =>
        rw [show Json.dumpsMembersSep [] = [] from rfl, List.nil_append,
            skipJWs_not_ws (c := cbrace) (by decide)]
        show (if cbrace = cbrace then some ([(String.mk k.toList, v)], rest) else none)
          = some ([(k, v)], rest)
        rw [if_pos rfl, stringMk_toList]
      | cons m ms2 =>
        obtain ⟨k2, v2⟩ := m
        rw [dumpsMembersSep_cons]
        simp only [List.cons_append]
        rw [skipJWs_not_ws (c := ',') (by decide)]
        show (parseMembers f (' ' :: (Json.dumpsMembers ((k2, v2) :: ms2) ++ cbrace :: rest))).map
            (fun p => ((String.mk k.toList, v) :: p.1, p.2))
          = some ((k, v) :: (k2, v2) :: ms2, rest)
        rw [parseMembers_skip_sp]
        have hbound2 : (Json.dumpsMembers ((k2, v2) :: ms2)).length + 1 < f := by
          have h3 : (Json.dumpsMembersSep ((k2, v2) :: ms2)).length
              = (Json.dumpsMembers ((k2, v2) :: ms2)).length + 2 := by
            rw [dumpsMembersSep_cons]; simp
          omega
        rw [ihM k2 v2 ms2 rest hbound2, stringMk_toList]
        rfl

/-- Parsing a serialized value recovers it exactly (with anything safe after it). -/
theorem parseVal_dumpsL (j : Json) (rest : List Char) (fuel : Nat)
    (hf : (Json.dumpsL j).length < fuel) (hrest : notDigitStart rest = true) :
    parseVal fuel (Json.dumpsL j ++ rest) = some (j, rest) :=
  (rt_all fuel).1 j rest hf hrest

theorem toList_mk (l : List Char) : (String.mk l).toList = l := rfl

/-- Parsing a serialized value as a whole document recovers it exactly. -/
theorem loadsL_dumpsL (j : Json) : loadsL (Json.dumpsL j) = some j := by
  rw [loadsL]
  have h := parseVal_dumpsL j [] ((Json.dumpsL j).length + 1) (by omega) (by decide)
  rw [List.append_nil] at h
  rw [h]
  rfl

/-- The codec round-trip: `json.loads` inverts `json.dumps` on every value. -/
theorem loads_dumps (j : Json) : loads (Json.dumps j) = some j := by
  rw [loads, Json.dumps, toList_mk]
  exact loadsL_dumpsL j

/-! ## Sub-agents (`src/app/agents/*.py`)

Each sub-agent wraps one LLM call.  The call is modelled by an oracle value:
either the text the model returned, or the exception (including timeout)
`chain.invoke` raised. -/

/-- Outcome of a sub-agent `chain.invoke` call. -/
inductive LlmCall where
  | ok (text : String)
  | raiseExn (msg : String)
  | timeout
deriving DecidableEq

/-- True when the call did not return text (it raised or timed out). -/
def LlmCall.failed : LlmCall → Bool
  | .ok _ => false
  | _ => true

/-- The shared body of every sub-agent `_parse`: clean the raw text, attempt a
direct parse, fall back to the brace-delimited slice, and otherwise return the
stage default (never raising). -/
def agentParse (dflt : Json) (raw : String) : Json :=
  let cleaned := cleanRaw raw.toList
  match loadsL cleaned with
  | some j => j
  | none =>
    match braceSlice cleaned with
    | some sub =>
      match loadsL sub with
      | some j => j
      | none => dflt
    | none => dflt

/-- Keys of a JSON object (the empty list on any other value). -/
def Json.keys : Json → List String
  | .obj fields => fields.map Prod.fst
  | _ => []

namespace CompetitionAgent

/-- The stage default of `CompetitionAgent`. -/
def dflt : Json :=
  .obj [("competitors", .arr []), ("alternative_product", .str ""), ("advantages", .str "")]

def _parse (raw : String) : Json := agentParse dflt raw

/-- `CompetitionAgent.run`: on any exception from the chain, log and return
the default; otherwise parse the returned content. -/
def run (company product desc context : String) (call : LlmCall) : Json :=
  match call with
  | .ok text => _parse text
  | _ => dflt

end CompetitionAgent

namespace UsecaseAgent

def dflt : Json := .obj [("use_cases", .arr [])]

def _parse (raw : String) : Json := agentParse dflt raw

def run (company product desc context comp_context : String) (call : LlmCall) : Json :=
  match call with
  | .ok text => _parse text
  | _ => dflt

end UsecaseAgent

namespace ObjectivesAgent

def dflt : Json := .obj [("objectives", .arr [])]

def _parse (raw : String) : Json := agentParse dflt raw

def run (company product desc comp_context usecase_context : String) (call : LlmCall) : Json :=
  match call with
  | .ok text => _parse text
  | _ => dflt

end ObjectivesAgent

namespace AudienceAgent

def dflt : Json := .obj [("target_users", .obj [])]

def _parse (raw : String) : Json := agentParse dflt raw

def run (company product icp desc comp_context usecase_context : String) (call : LlmCall) : Json :=
  match call with
  | .ok text => _parse text
  | _ => dflt

end AudienceAgent

namespace PositioningAgent

def dflt : Json := .obj [("positioning", .obj [])]

def _parse (raw : String) : Json := agentParse dflt raw

def run (company product tone desc comp_context usecase_context aud_context : String)
    (call : LlmCall) : Json :=
  match call with
  | .ok text => _parse text
  | _ => dflt

end PositioningAgent

/-! ## Campaign orchestrator (`src/app/agents/campaign_orchestrator.py`) -/

/-- One search hit from the vector store, as the orchestration layer reads it:
the `text` field and the `metadata.platform` field (defaults applied). -/
structure SearchHit where
  text : String
  platform : String
deriving DecidableEq

/-- Outcome of a `vector_db.search` call: the hit list, or the raised error. -/
inductive VdbCall where
  | ok (hits : List SearchHit)
  | raiseExn (msg : String)

/-- `CampaignOrchestrator._get_brand_context`: never raises; on search failure
returns a diagnostic placeholder, on an empty result a distinct placeholder. -/
def CampaignOrchestrator._get_brand_context (company_name query : String) (top_k : Nat)
    (search : VdbCall) : String :=
  match search with
  | .raiseExn _ => "Context retrieval failed."
  | .ok [] => "No past context available."
  | .ok results =>
    let chunks := results.enum.filterMap fun ir =>
      if pyStrip ir.2.text ≠ "" then
        some ("[Context " ++ toString (ir.1 + 1) ++ "]\n" ++ pyStrip ir.2.text)
      else none
    String.intercalate "\n\n" chunks

/-- The Python `dict.get(key, default)` call of `run_pipeline`, which raises
`AttributeError` when the stage output is not a dict. -/
def pyDictGet (j : Json) (key : String) (d : Json) : Except PyErr Json :=
  match j with
  | .obj fields => .ok ((objLookup fields key).getD d)
  | _ => .error (.attributeError (pyTypeName j ++ " object has no attribute get"))

/-- `CampaignOrchestrator.run_pipeline`: five sequential sub-agent stages, then
the merged `ai_brain` record with seven fixed keys.  Vector-store search and
the per-stage LLM calls are oracle parameters; the `_save_to_memory` writes
swallow their own errors and do not affect the result, so they are omitted. -/
def CampaignOrchestrator.run_pipeline (company_name product_service icp tone description : String)
    (campaign_id : Int) (search : VdbCall) (calls : Nat → LlmCall) : Except PyErr Json := do
  let scraped_context := CampaignOrchestrator._get_brand_context company_name
    (company_name ++ " brand context, " ++ product_service ++ ", " ++ description) 15 search
  let competition_out := CompetitionAgent.run company_name product_service description
    scraped_context (calls 0)
  let usecase_out := UsecaseAgent.run company_name product_service description
    scraped_context (Json.dumps competition_out) (calls 1)
  let objectives_out := ObjectivesAgent.run company_name product_service description
    (Json.dumps competition_out) (Json.dumps usecase_out) (calls 2)
  let audience_out := AudienceAgent.run company_name product_service icp description
    (Json.dumps competition_out) (Json.dumps usecase_out) (calls 3)
  let positioning_out := PositioningAgent.run company_name product_service tone description
    (Json.dumps competition_out) (Json.dumps usecase_out) (Json.dumps audience_out) (calls 4)
  let competitors ← pyDictGet competition_out "competitors" (.arr [])
  let alternative_product ← pyDictGet competition_out "alternative_product" (.str "")
  let advantages ← pyDictGet competition_out "advantages" (.str "")
  let use_cases ← pyDictGet usecase_out "use_cases" (.arr [])
  let objectives ← pyDictGet objectives_out "objectives" (.arr [])
  let target_users ← pyDictGet audience_out "target_users" (.obj [])
  let positioning ← pyDictGet positioning_out "positioning" (.obj [])
  pure (.obj [
    ("competitors", competitors),
    ("alternative_product", alternative_product),
    ("advantages", advantages),
    ("use_cases", use_cases),
    ("objectives", objectives),
    ("target_users", target_users),
    ("positioning", positioning)])

/-! ## Content agent (`src/agents/content_agent.py`) -/

/-- `VALID_TEMPLATE_TYPES`. -/
def VALID_TEMPLATE_TYPES : List String := ["educational", "problem_solution", "trust_story"]

/-- `DAYS_PER_BATCH`. -/
def DAYS_PER_BATCH : Nat := 5

/-- `TOTAL_DAYS`. -/
def TOTAL_DAYS : Nat := 30

namespace ContentAgent

/-- `ContentAgent._get_context`: semantic search wrapped so no exception
escapes; distinct placeholder strings for failure and for an empty result. -/
def _get_context (company_name query : String) (top_k : Nat) (search : VdbCall) : String :=
  match search with
  | .raiseExn _ => "Context retrieval failed — generating without past content."
  | .ok [] => "No past content available for this brand."
  | .ok results =>
    let chunks := results.enum.filterMap fun ir =>
      if pyStrip ir.2.text ≠ "" then
        some ("[Post " ++ toString (ir.1 + 1) ++ " — " ++ ir.2.platform ++ "]\n"
          ++ pyStrip ir.2.text)
      else none
    if chunks ≠ [] then String.intercalate "\n\n" chunks else "No past content available."

/-- Outcome of the raw-text fallback call for one calendar window. -/
inductive RawCall where
  | ok (text : String)
  | raiseExn (msg : String)
  | timeout
deriving DecidableEq

/-- Outcome of one calendar window generation: the structured chain succeeded
and parsed, or it timed out, or it raised and the raw fallback produced the
given `RawCall` outcome. -/
inductive BatchCall where
  | structured (j : Json)
  | timeout
  | fallback (r : RawCall)
deriving DecidableEq

/-- First day of batch `b` (`batch_idx * DAYS_PER_BATCH + 1`). -/
def windowStart (b : Nat) : Nat := b * DAYS_PER_BATCH + 1

/-- Last day of batch `b` (`min(day_start + DAYS_PER_BATCH - 1, TOTAL_DAYS)`). -/
def windowEnd (b : Nat) : Nat := min (windowStart b + DAYS_PER_BATCH - 1) TOTAL_DAYS

/-- The content type the loop assigns to a day:
`content_types[(day - 1) % len(content_types)]` (`None` marks the
`ZeroDivisionError` raised on an empty list). -/
def ctFor (content_types : List String) (day : Nat) : Option String :=
  if h : content_types.length = 0 then none
  else some (content_types.get ⟨(day - 1) % content_types.length,
    Nat.mod_lt _ (Nat.pos_of_ne_zero h)⟩)

/-- One `- Day {day}: {ct}` line of the per-window day assignments. -/
def dayAssignLine (day : Nat) (ct : String) : String :=
  "- Day " ++ toString day ++ ": " ++ ct

/-- The `day_assignments_lines` list a window builds (days
`day_start..day_end`), `none` when the content-type list is empty. -/
def dayAssignLines (content_types : List String) (day_start day_end : Nat) :
    Option (List String) :=
  if content_types.length = 0 then none
  else some ((List.range' day_start (day_end + 1 - day_start)).map fun day =>
    dayAssignLine day ((ctFor content_types day).getD ""))

/-- The `error`-typed placeholder days synthesized for a failed window. -/
def placeholders (day_start day_end : Nat) (msg : String) : List Json :=
  (List.range' day_start (day_end + 1 - day_start)).map fun (day : Nat) =>
    .obj [("day", .num (Int.ofNat day)), ("content_type", .str "error"), ("error", .str msg)]

/-- Extracting the days of a parsed batch result, inside the outer `try`:
`batch_result.get("days", [])` (an `AttributeError` on a non-dict), then
`len(batch_days)` (a `TypeError` on an unsized value), then
`all_days.extend(batch_days)` (iterating characters of a string and keys of a
dict).  Any exception is caught by the outer handler, which appends one
placeholder per day of the window instead. -/
def extractBatchDays (j : Json) (day_start day_end : Nat) : List Json :=
  match j with
  | .obj fields =>
    match (objLookup fields "days").getD (.arr []) with
    | .arr xs => xs
    | .str s => s.toList.map fun c => .str (String.mk [c])
    | .obj kvs => kvs.map fun kv => .str kv.1
    | other =>
      placeholders day_start day_end
        ("object of type " ++ pyTypeName other ++ " has no len()")
  | other =>
    placeholders day_start day_end (pyTypeName other ++ " object has no attribute get")

/-- The days one window contributes to the calendar, given its oracle outcome
(`b` is the zero-based batch index, used only in error messages). -/
def processBatch (call : BatchCall) (b day_start day_end : Nat) : List Json :=
  match call with
  | .structured j => extractBatchDays j day_start day_end
  | .timeout =>
    placeholders day_start day_end ("Batch " ++ toString (b + 1) ++ " timed out.")
  | .fallback .timeout =>
    placeholders day_start day_end ("Batch " ++ toString (b + 1) ++ " fallback timed out.")
  | .fallback (.raiseExn msg) => placeholders day_start day_end msg
  | .fallback (.ok raw) =>
    match _extract_json raw with
    | .ok j => extractBatchDays j day_start day_end
    | .error (.valueError msg) => placeholders day_start day_end msg
    | .error _ => placeholders day_start day_end ""

/-- `num_batches = (TOTAL_DAYS + DAYS_PER_BATCH - 1) // DAYS_PER_BATCH`. -/
def numBatches : Nat := (TOTAL_DAYS + DAYS_PER_BATCH - 1) / DAYS_PER_BATCH

/-- The `all_days` list accumulated over the sequential batch loop. -/
def runWindows (calls : Nat → BatchCall) : List Json :=
  (List.range numBatches).flatMap fun b =>
    processBatch (calls b) b (windowStart b) (windowEnd b)

/-- The message of the `ValueError` raised on an invalid template type (the
Python text interpolates the valid set, whose repr order is hash-dependent,
so the model fixes one rendering). -/
def invalidTemplateMsg (t : String) : String :=
  "Invalid template_type " ++ t ++ ". Must be one of: educational, problem_solution, trust_story"

/-- `ContentAgent.generate_monthly`: validate and normalize the template type,
retrieve context, then generate the 30-day calendar in batches of 5 with
per-window failure isolation.  An empty content-type list raises
`ZeroDivisionError` from the day-assignment computation of the first window,
outside the per-window `try`. -/
def generate_monthly (search : VdbCall) (calls : Nat → BatchCall)
    (brand icp tone description : String) (content_types : List String)
    (template_type : String) : Except PyErr Json :=
  let t := pyStrip (pyLower template_type)
  if t ∈ VALID_TEMPLATE_TYPES then
    let query := description ++ ". Target audience: " ++ icp ++ ". Tone: " ++ tone
      ++ ". Content style: " ++ (t.replace "_" " ") ++ "."
    let _context := _get_context brand query 5 search
    if content_types.length = 0 then
      .error (.zeroDivisionError "integer division or modulo by zero")
    else
      let all_days := runWindows calls
      .ok (.obj [
        ("template_type", .str t),
        ("total_days", .num all_days.length),
        ("days", .arr all_days)])
  else .error (.valueError (invalidTemplateMsg t))

end ContentAgent

/-! ## Claim theorems -/

/-- C2: for every one of the five sub-agents, if the underlying generation
call raises or times out, `run(...)` returns the stage default — a mapping
containing every required key of that stage's schema with empty values — and
never propagates an exception (each `run` is a total function into `Json`). -/
theorem claim_C2_subagent_defaults (c : LlmCall) (h : c.failed = true)
    (company product icp tone desc ctx x1 x2 x3 : String) :
    CompetitionAgent.run company product desc ctx c = CompetitionAgent.dflt ∧
    UsecaseAgent.run company product desc ctx x1 c = UsecaseAgent.dflt ∧
    ObjectivesAgent.run company product desc x1 x2 c = ObjectivesAgent.dflt ∧
    AudienceAgent.run company product icp desc x1 x2 c = AudienceAgent.dflt ∧
    PositioningAgent.run company product tone desc x1 x2 x3 c = PositioningAgent.dflt ∧
    Json.keys CompetitionAgent.dflt = ["competitors", "alternative_product", "advantages"] ∧
    Json.keys UsecaseAgent.dflt = ["use_cases"] ∧
    Json.keys ObjectivesAgent.dflt = ["objectives"] ∧
    Json.keys AudienceAgent.dflt = ["target_users"] ∧
    Json.keys PositioningAgent.dflt = ["positioning"] := by
  cases c with
  | ok t => simp [LlmCall.failed] at h
  | raiseExn m =>
    exact ⟨rfl, rfl, rfl, rfl, rfl, by decide, by decide, by decide, by decide, by decide⟩
  | timeout =>
    exact ⟨rfl, rfl, rfl, rfl, rfl, by decide, by decide, by decide, by decide, by decide⟩

/-- Witness for C2 at the timeout outcome. -/
theorem claim_C2_subagent_defaults_witness :
    CompetitionAgent.run "c" "p" "d" "x" .timeout = CompetitionAgent.dflt ∧
    UsecaseAgent.run "c" "p" "d" "x" "y" .timeout = UsecaseAgent.dflt ∧
    ObjectivesAgent.run "c" "p" "d" "y" "z" .timeout = ObjectivesAgent.dflt ∧
    AudienceAgent.run "c" "p" "i" "d" "y" "z" .timeout = AudienceAgent.dflt ∧
    PositioningAgent.run "c" "p" "t" "d" "y" "z" "w" .timeout = PositioningAgent.dflt ∧
    Json.keys CompetitionAgent.dflt = ["competitors", "alternative_product", "advantages"] ∧
    Json.keys UsecaseAgent.dflt = ["use_cases"] ∧
    Json.keys ObjectivesAgent.dflt = ["objectives"] ∧
    Json.keys AudienceAgent.dflt = ["target_users"] ∧
    Json.keys PositioningAgent.dflt = ["positioning"] :=
  claim_C2_subagent_defaults .timeout rfl "c" "p" "i" "t" "d" "x" "y" "z" "w"

/-- C8: the context-retrieval steps never propagate an exception (both are
total `String`-valued functions of the search outcome): on a search failure
each returns its diagnostic placeholder, and on an empty result set each
returns a distinct no-past-content placeholder. -/
theorem claim_C8_context_placeholders (company query : String) (top_k : Nat)
    (search : VdbCall) :
    (∀ m, search = .raiseExn m →
      ContentAgent._get_context company query top_k search
        = "Context retrieval failed — generating without past content." ∧
      CampaignOrchestrator._get_brand_context company query top_k search
        = "Context retrieval failed.") ∧
    (search = .ok [] →
      ContentAgent._get_context company query top_k search
        = "No past content available for this brand." ∧
      CampaignOrchestrator._get_brand_context company query top_k search
        = "No past context available.") ∧
    ("Context retrieval failed — generating without past content."
      ≠ "No past content available for this brand.") ∧
    ("Context retrieval failed." ≠ "No past context available.") := by
  refine ⟨?_, ?_, by decide, by decide⟩
  · intro m he
    subst he
    exact ⟨rfl, rfl⟩
  · intro he
    subst he
    exact ⟨rfl, rfl⟩

/-- Witness for C8 at a failing search and an empty search. -/
theorem claim_C8_context_placeholders_witness :
    ContentAgent._get_context "b" "q" 5 (.raiseExn "down")
      = "Context retrieval failed — generating without past content." ∧
    CampaignOrchestrator._get_brand_context "b" "q" 15 (.ok [])
      = "No past context available." :=
  ⟨((claim_C8_context_placeholders "b" "q" 5 (.raiseExn "down")).1 "down" rfl).1,
   ((claim_C8_context_placeholders "b" "q" 15 (.ok [])).2.1 rfl).2⟩

/-- C9: calling `generate_monthly` with an empty content-type list raises
`ZeroDivisionError` to the caller (for every behaviour of the generation and
retrieval oracles — the division happens before any per-window `try`), so the
completeness guarantee only holds for non-empty content-type lists. -/
theorem claim_C9_empty_content_types (search : VdbCall)
    (calls : Nat → ContentAgent.BatchCall) (brand icp tone description tt : String)
    (hv : pyStrip (pyLower tt) ∈ VALID_TEMPLATE_TYPES) :
    ContentAgent.generate_monthly search calls brand icp tone description [] tt
      = .error (.zeroDivisionError "integer division or modulo by zero") := by
  unfold ContentAgent.generate_monthly
  rw [if_pos hv]
  rfl

/-- Witness for C9. -/
theorem claim_C9_empty_content_types_witness :
    ContentAgent.generate_monthly (.ok []) (fun _ => .timeout) "b" "i" "t" "d" [] "educational"
      = .error (.zeroDivisionError "integer division or modulo by zero") :=
  claim_C9_empty_content_types (.ok []) (fun _ => .timeout) "b" "i" "t" "d" "educational"
    (by decide)

/-- C10: `generate_monthly` lowercases and strips the template type; for every
value not in the valid set after normalization it raises `ValueError`, for
every oracle behaviour (the fixed right-hand side shows the error is decided
before any retrieval or generation call is consulted); for accepted values the
run succeeds (given a non-empty content-type list) and the returned record's
`template_type` field is the normalized value. -/
theorem claim_C10_template_validation (search : VdbCall)
    (calls : Nat → ContentAgent.BatchCall) (brand icp tone description tt : String)
    (cts : List String) :
    (pyStrip (pyLower tt) ∉ VALID_TEMPLATE_TYPES →
      ContentAgent.generate_monthly search calls brand icp tone description cts tt
        = .error (.valueError (ContentAgent.invalidTemplateMsg (pyStrip (pyLower tt))))) ∧
    (pyStrip (pyLower tt) ∈ VALID_TEMPLATE_TYPES → cts.length ≠ 0 →
      ContentAgent.generate_monthly search calls brand icp tone description cts tt
        = .ok (.obj [
            ("template_type", .str (pyStrip (pyLower tt))),
            ("total_days", .num (ContentAgent.runWindows calls).length),
            ("days", .arr (ContentAgent.runWindows calls))])) := by
  constructor
  · intro hinv
    unfold ContentAgent.generate_monthly
    rw [if_neg hinv]
  · intro hv hcts
    unfold ContentAgent.generate_monthly
    rw [if_pos hv, if_neg hcts]

/-- Witness for C10: an invalid type, and a valid type given in mixed case
with surrounding whitespace. -/
theorem claim_C10_template_validation_witness :
    (ContentAgent.generate_monthly (.ok []) (fun _ => .timeout) "b" "i" "t" "d"
        ["carousel"] "poetry"
      = .error (.valueError (ContentAgent.invalidTemplateMsg "poetry"))) ∧
    (ContentAgent.generate_monthly (.ok []) (fun _ => .timeout) "b" "i" "t" "d"
        ["carousel"] " Trust_Story "
      = .ok (.obj [
          ("template_type", .str "trust_story"),
          ("total_days", .num (ContentAgent.runWindows (fun _ => .timeout)).length),
          ("days", .arr (ContentAgent.runWindows (fun _ => .timeout)))])) := by
  constructor
  · exact (claim_C10_template_validation (.ok []) (fun _ => .timeout) "b" "i" "t" "d"
      "poetry" ["carousel"]).1 (by decide)
  · exact (claim_C10_template_validation (.ok []) (fun _ => .timeout) "b" "i" "t" "d"
      " Trust_Story " ["carousel"]).2 (by decide) (by decide)

/-- C4: the content type the window-prompt builder assigns to day `d` is
`content_types[(d - 1) % k]`: the day-assignment line at position `d - ds` of
the window `[ds, de]` names exactly that type; in particular, for
`[carousel, video_script]` the odd days of `1..10` get `carousel` and the even
days `video_script`. -/
theorem claim_C4_content_type_cycling (cts : List String) (hk : cts.length ≠ 0)
    (d ds de : Nat) (hds : ds ≤ d) (hde : d ≤ de) :
    (((ContentAgent.dayAssignLines cts ds de).getD [])[d - ds]?
      = some (ContentAgent.dayAssignLine d (cts.getD ((d - 1) % cts.length) ""))) ∧
    ContentAgent.ctFor cts d = some (cts.getD ((d - 1) % cts.length) "") ∧
    (∀ d2, d2 < 11 → 1 ≤ d2 →
      ContentAgent.ctFor ["carousel", "video_script"] d2
        = some (if d2 % 2 = 1 then "carousel" else "video_script")) := by
  have hct : ContentAgent.ctFor cts d = some (cts.getD ((d - 1) % cts.length) "") := by
    rw [ContentAgent.ctFor, dif_neg hk]
    congr 1
    exact (List.getD_eq_getElem cts "" (Nat.mod_lt _ (Nat.pos_of_ne_zero hk))).symm
  refine ⟨?_, hct, by decide⟩
  rw [ContentAgent.dayAssignLines, if_neg hk]
  show ((List.range' ds (de + 1 - ds)).map fun day =>
      ContentAgent.dayAssignLine day ((ContentAgent.ctFor cts day).getD ""))[d - ds]?
    = some (ContentAgent.dayAssignLine d (cts.getD ((d - 1) % cts.length) ""))
  rw [List.getElem?_map, List.getElem?_range']
  · have h1 : ds + 1 * (d - ds) = d := by omega
    rw [h1]
    show some (ContentAgent.dayAssignLine d ((ContentAgent.ctFor cts d).getD ""))
      = some (ContentAgent.dayAssignLine d (cts.getD ((d - 1) % cts.length) ""))
    rw [hct]
    rfl
  · omega

/-- Witness for C4 at day 4 of the window `[1, 5]` with two content types. -/
theorem claim_C4_content_type_cycling_witness :
    (((ContentAgent.dayAssignLines ["carousel", "video_script"] 1 5).getD [])[4 - 1]?
      = some (ContentAgent.dayAssignLine 4
          (["carousel", "video_script"].getD ((4 - 1) % 2) ""))) ∧
    ContentAgent.ctFor ["carousel", "video_script"] 4
      = some (["carousel", "video_script"].getD ((4 - 1) % 2) "") ∧
    (∀ d2, d2 < 11 → 1 ≤ d2 →
      ContentAgent.ctFor ["carousel", "video_script"] d2
        = some (if d2 % 2 = 1 then "carousel" else "video_script")) :=
  claim_C4_content_type_cycling ["carousel", "video_script"] (by decide) 4 1 5
    (by decide) (by decide)

/-- True exactly on JSON objects (Python dicts). -/
def Json.isObj : Json → Bool
  | .obj _ => true
  | _ => false

/-- A stage's output as a function of its call outcome alone (the prompt
fields of `run` do not influence the result in the oracle model). -/
def stageOut (d : Json) (c : LlmCall) : Json :=
  match c with
  | .ok text => agentParse d text
  | _ => d

/-- Total `dict.get(key, default)` on values already known to be objects. -/
def objGetD (j : Json) (key : String) (d : Json) : Json :=
  match j with
  | .obj fields => (objLookup fields key).getD d
  | _ => d

theorem pyDictGet_isObj (j : Json) (key : String) (d : Json) (h : j.isObj = true) :
    pyDictGet j key d = .ok (objGetD j key d) := by
  cases j <;> simp [Json.isObj] at h ⊢ <;> rfl

theorem isObj_exists {j : Json} (h : j.isObj = true) : ∃ fs, j = .obj fs := by
  cases j <;> simp [Json.isObj] at h ⊢

theorem CompetitionAgent.run_unfolded (a b c2 d : String) (c : LlmCall) :
    CompetitionAgent.run a b c2 d c = stageOut CompetitionAgent.dflt c := by
  cases c <;> rfl

theorem UsecaseAgent.run_expanded (a b c2 d e : String) (c : LlmCall) :
    UsecaseAgent.run a b c2 d e c = stageOut UsecaseAgent.dflt c := by
  cases c <;> rfl

theorem ObjectivesAgent.run_opened (a b c2 d e : String) (c : LlmCall) :
    ObjectivesAgent.run a b c2 d e c = stageOut ObjectivesAgent.dflt c := by
  cases c <;> rfl

theorem AudienceAgent.run_spelled (a b c2 d e f : String) (c : LlmCall) :
    AudienceAgent.run a b c2 d e f c = stageOut AudienceAgent.dflt c := by
  cases c <;> rfl

theorem PositioningAgent.run_stated (a b c2 d e f g : String) (c : LlmCall) :
    PositioningAgent.run a b c2 d e f g c = stageOut PositioningAgent.dflt c := by
  cases c <;> rfl

/-- C3 fails as stated: when the competition stage's generation call returns
the parseable non-mapping text `[]`, the stage output is a JSON list, and the
merge step's `dict.get` raises `AttributeError` out of `run_pipeline`. -/
theorem claim_C3_counterexample :
    CampaignOrchestrator.run_pipeline "c" "p" "i" "t" "d" 1 (.ok [])
      (fun i => if i = 0 then .ok "[]" else .timeout)
      = .error (.attributeError "list object has no attribute get") := by
  decide

set_option maxHeartbeats 1000000 in
/-- C3 (amended): for every run in which each sub-agent's output is a mapping
— in particular every run in which every sub-agent fails soft, since the
stage defaults are mappings — `run_pipeline` returns (without raising) the
merged record with exactly the seven fixed top-level keys, each holding the
value `dict.get` reads off the stage output, which is the stage's
default-empty value whenever that stage failed. -/
theorem claim_C3_pipeline_soft_failure (company product icp tone desc : String)
    (cid : Int) (search : VdbCall) (calls : Nat → LlmCall)
    (h0 : (stageOut CompetitionAgent.dflt (calls 0)).isObj = true)
    (h1 : (stageOut UsecaseAgent.dflt (calls 1)).isObj = true)
    (h2 : (stageOut ObjectivesAgent.dflt (calls 2)).isObj = true)
    (h3 : (stageOut AudienceAgent.dflt (calls 3)).isObj = true)
    (h4 : (stageOut PositioningAgent.dflt (calls 4)).isObj = true) :
    CampaignOrchestrator.run_pipeline company product icp tone desc cid search calls
      = .ok (.obj [
          ("competitors",
            objGetD (stageOut CompetitionAgent.dflt (calls 0)) "competitors" (.arr [])),
          ("alternative_product",
            objGetD (stageOut CompetitionAgent.dflt (calls 0)) "alternative_product" (.str "")),
          ("advantages",
            objGetD (stageOut CompetitionAgent.dflt (calls 0)) "advantages" (.str "")),
          ("use_cases",
            objGetD (stageOut UsecaseAgent.dflt (calls 1)) "use_cases" (.arr [])),
          ("objectives",
            objGetD (stageOut ObjectivesAgent.dflt (calls 2)) "objectives" (.arr [])),
          ("target_users",
            objGetD (stageOut AudienceAgent.dflt (calls 3)) "target_users" (.obj [])),
          ("positioning",
            objGetD (stageOut PositioningAgent.dflt (calls 4)) "positioning" (.obj []))]) ∧
    ((∀ i, (calls i).failed = true) →
      CampaignOrchestrator.run_pipeline company product icp tone desc cid search calls
        = .ok (.obj [
            ("competitors", .arr []),
            ("alternative_product", .str ""),
            ("advantages", .str ""),
            ("use_cases", .arr []),
            ("objectives", .arr []),
            ("target_users", .obj []),
            ("positioning", .obj [])])) := by
  have hmain : CampaignOrchestrator.run_pipeline company product icp tone desc cid search calls
      = .ok (.obj [
          ("competitors",
            objGetD (stageOut CompetitionAgent.dflt (calls 0)) "competitors" (.arr [])),
          ("alternative_product",
            objGetD (stageOut CompetitionAgent.dflt (calls 0)) "alternative_product" (.str "")),
          ("advantages",
            objGetD (stageOut CompetitionAgent.dflt (calls 0)) "advantages" (.str "")),
          ("use_cases",
            objGetD (stageOut UsecaseAgent.dflt (calls 1)) "use_cases" (.arr [])),
          ("objectives",
            objGetD (stageOut ObjectivesAgent.dflt (calls 2)) "objectives" (.arr [])),
          ("target_users",
            objGetD (stageOut AudienceAgent.dflt (calls 3)) "target_users" (.obj [])),
          ("positioning",
            objGetD (stageOut PositioningAgent.dflt (calls 4)) "positioning" (.obj []))]) := by
    obtain ⟨f0, hf0⟩ := isObj_exists h0
    obtain ⟨f1, hf1⟩ := isObj_exists h1
    obtain ⟨f2, hf2⟩ := isObj_exists h2
    obtain ⟨f3, hf3⟩ := isObj_exists h3
    obtain ⟨f4, hf4⟩ := isObj_exists h4
    unfold CampaignOrchestrator.run_pipeline
    simp only [CompetitionAgent.run_unfolded, UsecaseAgent.run_expanded, ObjectivesAgent.run_opened,
        AudienceAgent.run_spelled, PositioningAgent.run_stated, hf0, hf1, hf2, hf3, hf4]
    rfl
  refine ⟨hmain, fun hfail => ?_⟩
  have e0 : stageOut CompetitionAgent.dflt (calls 0) = CompetitionAgent.dflt := by
    have := hfail 0
    cases hc : calls 0 <;> rw [hc] at this <;> first
      | rfl
      | simp [LlmCall.failed] at this
  have e1 : stageOut UsecaseAgent.dflt (calls 1) = UsecaseAgent.dflt := by
    have := hfail 1
    cases hc : calls 1 <;> rw [hc] at this <;> first
      | rfl
      | simp [LlmCall.failed] at this
  have e2 : stageOut ObjectivesAgent.dflt (calls 2) = ObjectivesAgent.dflt := by
    have := hfail 2
    cases hc : calls 2 <;> rw [hc] at this <;> first
      | rfl
      | simp [LlmCall.failed] at this
  have e3 : stageOut AudienceAgent.dflt (calls 3) = AudienceAgent.dflt := by
    have := hfail 3
    cases hc : calls 3 <;> rw [hc] at this <;> first
      | rfl
      | simp [LlmCall.failed] at this
  have e4 : stageOut PositioningAgent.dflt (calls 4) = PositioningAgent.dflt := by
    have := hfail 4
    cases hc : calls 4 <;> rw [hc] at this <;> first
      | rfl
      | simp [LlmCall.failed] at this
  rw [hmain, e0, e1, e2, e3, e4]
  rfl

/-- Witness for C3 with every sub-agent timing out. -/
theorem claim_C3_pipeline_soft_failure_witness :
    CampaignOrchestrator.run_pipeline "c" "p" "i" "t" "d" 1 (.ok []) (fun _ => .timeout)
      = .ok (.obj [
          ("competitors", .arr []),
          ("alternative_product", .str ""),
          ("advantages", .str ""),
          ("use_cases", .arr []),
          ("objectives", .arr []),
          ("target_users", .obj []),
          ("positioning", .obj [])]) :=
  (claim_C3_pipeline_soft_failure "c" "p" "i" "t" "d" 1 (.ok []) (fun _ => .timeout)
    rfl rfl rfl rfl rfl).2 (fun _ => rfl)

/-- The `day` field of a calendar entry, when the entry is a mapping. -/
def dayOf : Json → Option Json
  | .obj fields => objLookup fields "day"
  | _ => none

/-- A parsed window payload that yields exactly the scheduled days of the
window `[ds, de]`: a mapping whose `days` key holds a list whose entries carry
the day numbers `ds..de` in order. -/
def windowPayloadOk (ds de : Nat) (j : Json) : Bool :=
  match j with
  | .obj fields =>
    match objLookup fields "days" with
    | some (.arr xs) =>
      decide (xs.map dayOf
        = (List.range' ds (de + 1 - ds)).map (fun d => some (.num (d : Int))))
    | _ => false
  | _ => false

/-- A window outcome that is either a failure (timeout, fallback timeout,
fallback exception, or unparseable raw text) or a success whose payload
carries exactly the scheduled days of the window `[ds, de]`. -/
def windowOkAt (ds de : Nat) (c : ContentAgent.BatchCall) : Bool :=
  match c with
  | .structured j => windowPayloadOk ds de j
  | .fallback (.ok raw) =>
    match ContentAgent._extract_json raw with
    | .ok j => windowPayloadOk ds de j
    | .error _ => true
  | _ => true

/-- `windowOkAt` at batch `b`'s own window. -/
def windowOk (b : Nat) (c : ContentAgent.BatchCall) : Bool :=
  windowOkAt (ContentAgent.windowStart b) (ContentAgent.windowEnd b) c

/-- A window outcome that cannot be resolved by the structured path or the
raw-text normalization path (including both timeouts). -/
def windowFails : ContentAgent.BatchCall → Bool
  | .timeout => true
  | .fallback .timeout => true
  | .fallback (.raiseExn _) => true
  | .fallback (.ok raw) =>
    match ContentAgent._extract_json raw with
    | .error _ => true
    | .ok _ => false
  | .structured _ => false

/-- The `str(e)` of the exception a failing window was caught with. -/
def failReason (b : Nat) : ContentAgent.BatchCall → String
  | .timeout => "Batch " ++ toString (b + 1) ++ " timed out."
  | .fallback .timeout => "Batch " ++ toString (b + 1) ++ " fallback timed out."
  | .fallback (.raiseExn msg) => msg
  | .fallback (.ok raw) =>
    match ContentAgent._extract_json raw with
    | .error (.valueError msg) => msg
    | _ => ""
  | .structured _ => ""

theorem placeholders_dayOf (ds de : Nat) (m : String) :
    (ContentAgent.placeholders ds de m).map dayOf
      = (List.range' ds (de + 1 - ds)).map (fun d => some (.num (d : Int))) := by
  rw [ContentAgent.placeholders, List.map_map]
  rfl

theorem extractBatchDays_dayOf (j : Json) (ds de : Nat) (h : windowPayloadOk ds de j = true) :
    (ContentAgent.extractBatchDays j ds de).map dayOf
      = (List.range' ds (de + 1 - ds)).map (fun d => some (.num (d : Int))) := by
  cases j with
  | obj fields =>
    rw [windowPayloadOk] at h
    rcases hl : objLookup fields "days" with _ | j2
    · rw [hl] at h
      exact absurd h (by simp)
    · rw [hl] at h
      cases j2 with
      | arr xs =>
        rw [ContentAgent.extractBatchDays, hl]
        exact of_decide_eq_true h
      | null => exact absurd h (by simp)
      | bool b => exact absurd h (by simp)
      | num n => exact absurd h (by simp)
      | str s => exact absurd h (by simp)
      | obj fs => exact absurd h (by simp)
  | null => exact absurd h (by simp [windowPayloadOk])
  | bool b => exact absurd h (by simp [windowPayloadOk])
  | num n => exact absurd h (by simp [windowPayloadOk])
  | str s => exact absurd h (by simp [windowPayloadOk])
  | arr xs => exact absurd h (by simp [windowPayloadOk])

theorem processBatch_dayOf (c : ContentAgent.BatchCall) (b ds de : Nat)
    (h : windowOkAt ds de c = true) :
    (ContentAgent.processBatch c b ds de).map dayOf
      = (List.range' ds (de + 1 - ds)).map (fun d => some (.num (d : Int))) := by
  cases c with
  | structured j => exact extractBatchDays_dayOf j ds de h
  | timeout => exact placeholders_dayOf ds de _
  | fallback r =>
    cases r with
    | timeout => exact placeholders_dayOf ds de _
    | raiseExn m => exact placeholders_dayOf ds de _
    | ok raw =>
      rw [windowOkAt] at h
      rcases he : ContentAgent._extract_json raw with e | j
      · rw [ContentAgent.processBatch, he]
        cases e <;> exact placeholders_dayOf ds de _
      · rw [he] at h
        rw [ContentAgent.processBatch, he]
        exact extractBatchDays_dayOf j ds de h

/-- Counterexample to C1 as stated: a model that answers every window with the
well-formed mapping `{"days": []}` drives `generate_monthly` to a record with
an empty `days` collection and `total_days = 0`, not 30 — the completeness
invariant does not hold for arbitrary successful payloads. -/
theorem claim_C1_counterexample :
    ContentAgent.generate_monthly (.ok [])
        (fun _ => .structured (.obj [("days", .arr [])]))
        "b" "i" "t" "d" ["carousel"] "educational"
      = .ok (.obj [
          ("template_type", .str "educational"),
          ("total_days", .num 0),
          ("days", .arr [])]) := by
  decide

/-- C1 (amended): whenever every window outcome is a failure or a success whose
payload lists exactly its scheduled days, `generate_monthly` (with a valid
template type and a non-empty content-type list) returns a record whose `days`
collection has exactly 30 entries, whose `day` values are `1..30` in order
with no duplicates and no gaps, and whose `total_days` equals 30. -/
theorem claim_C1_calendar_completeness (search : VdbCall)
    (calls : Nat → ContentAgent.BatchCall)
    (brand icp tone description : String) (content_types : List String)
    (template_type : String)
    (hv : pyStrip (pyLower template_type) ∈ VALID_TEMPLATE_TYPES)
    (hcts : content_types.length ≠ 0)
    (hok : ∀ b, b < ContentAgent.numBatches → windowOk b (calls b) = true) :
    ContentAgent.generate_monthly search calls brand icp tone description
        content_types template_type
      = .ok (.obj [
          ("template_type", .str (pyStrip (pyLower template_type))),
          ("total_days", .num 30),
          ("days", .arr (ContentAgent.runWindows calls))])
    ∧ (ContentAgent.runWindows calls).length = 30
    ∧ (ContentAgent.runWindows calls).map dayOf
        = (List.range' 1 30).map (fun d => some (.num (Int.ofNat d))) := by
  have hok' : ∀ b, b < ContentAgent.numBatches →
      windowOkAt (ContentAgent.windowStart b) (ContentAgent.windowEnd b) (calls b) = true :=
    hok
  have hmap : (ContentAgent.runWindows calls).map dayOf
      = (List.range' 1 30).map (fun d => some (.num (Int.ofNat d))) := by
    rw [ContentAgent.runWindows]
    have h6 : List.range ContentAgent.numBatches = [0, 1, 2, 3, 4, 5] := by decide
    rw [h6]
    simp only [List.flatMap_cons, List.flatMap_nil, List.append_nil, List.map_append]
    rw [processBatch_dayOf (calls 0) 0 _ _ (hok' 0 (by decide)),
      processBatch_dayOf (calls 1) 1 _ _ (hok' 1 (by decide)),
      processBatch_dayOf (calls 2) 2 _ _ (hok' 2 (by decide)),
      processBatch_dayOf (calls 3) 3 _ _ (hok' 3 (by decide)),
      processBatch_dayOf (calls 4) 4 _ _ (hok' 4 (by decide)),
      processBatch_dayOf (calls 5) 5 _ _ (hok' 5 (by decide))]
    decide
  have hlen : (ContentAgent.runWindows calls).length = 30 := by
    have h := congrArg List.length hmap
    simpa using h
  refine ⟨?_, hlen, hmap⟩
  unfold ContentAgent.generate_monthly
  rw [if_pos hv, if_neg hcts]
  simp only [hlen]
  rfl

/-- Witness for C1: every window times out — each is a failing window, so the
conformance hypothesis holds, and the calendar is still complete. -/
theorem claim_C1_calendar_completeness_witness :
    ContentAgent.generate_monthly (.ok []) (fun _ => .timeout) "b" "i" "t" "d"
        ["carousel"] "educational"
      = .ok (.obj [
          ("template_type", .str "educational"),
          ("total_days", .num 30),
          ("days", .arr (ContentAgent.runWindows (fun _ => .timeout)))])
    ∧ (ContentAgent.runWindows (fun _ => .timeout)).length = 30
    ∧ (ContentAgent.runWindows (fun _ => .timeout)).map dayOf
        = (List.range' 1 30).map (fun d => some (.num (Int.ofNat d))) :=
  claim_C1_calendar_completeness (.ok []) (fun _ => .timeout) "b" "i" "t" "d"
    ["carousel"] "educational" (by decide) (by decide) (fun b _ => rfl)

/-- C7: a window whose generation call cannot be resolved by the structured
path or the raw-text normalization path (including both timeouts) contributes
exactly one `error`-typed entry per day of its `[day_start, day_end]` range,
carrying the failure reason; and the overall run still returns its record —
the window failure is never fatal. -/
theorem claim_C7_error_placeholder_days (search : VdbCall)
    (calls : Nat → ContentAgent.BatchCall)
    (brand icp tone description : String) (content_types : List String)
    (template_type : String) (b : Nat)
    (hb : b < ContentAgent.numBatches)
    (hf : windowFails (calls b) = true)
    (hv : pyStrip (pyLower template_type) ∈ VALID_TEMPLATE_TYPES)
    (hcts : content_types.length ≠ 0) :
    ContentAgent.processBatch (calls b) b
        (ContentAgent.windowStart b) (ContentAgent.windowEnd b)
      = ContentAgent.placeholders (ContentAgent.windowStart b) (ContentAgent.windowEnd b)
          (failReason b (calls b))
    ∧ ContentAgent.generate_monthly search calls brand icp tone description
        content_types template_type
      = .ok (.obj [
          ("template_type", .str (pyStrip (pyLower template_type))),
          ("total_days", .num (ContentAgent.runWindows calls).length),
          ("days", .arr (ContentAgent.runWindows calls))]) := by
  constructor
  · cases hc : calls b with
    | structured j =>
      rw [hc] at hf
      exact absurd hf (by simp [windowFails])
    | timeout => rfl
    | fallback r =>
      rw [hc] at hf
      cases r with
      | timeout => rfl
      | raiseExn m => rfl
      | ok raw =>
        rcases he : ContentAgent._extract_json raw with e | j
        · cases e with
          | valueError m => simp only [ContentAgent.processBatch, failReason, he]
          | typeError m => simp only [ContentAgent.processBatch, failReason, he]
          | attributeError m => simp only [ContentAgent.processBatch, failReason, he]
          | zeroDivisionError m => simp only [ContentAgent.processBatch, failReason, he]
        · simp only [windowFails, he] at hf
          exact absurd hf (by decide)
  · unfold ContentAgent.generate_monthly
    rw [if_pos hv, if_neg hcts]

/-- Witness for C7: batch 0 times out; its window `[1, 5]` becomes five
placeholder entries and the run returns its record. -/
theorem claim_C7_error_placeholder_days_witness :
    ContentAgent.processBatch ((fun _ => ContentAgent.BatchCall.timeout) 0) 0
        (ContentAgent.windowStart 0) (ContentAgent.windowEnd 0)
      = ContentAgent.placeholders (ContentAgent.windowStart 0) (ContentAgent.windowEnd 0)
          (failReason 0 ((fun _ => ContentAgent.BatchCall.timeout) 0))
    ∧ ContentAgent.generate_monthly (.ok []) (fun _ => .timeout) "b" "i" "t" "d"
        ["carousel"] "educational"
      = .ok (.obj [
          ("template_type", .str "educational"),
          ("total_days", .num (ContentAgent.runWindows (fun _ => .timeout)).length),
          ("days", .arr (ContentAgent.runWindows (fun _ => .timeout)))]) :=
  claim_C7_error_placeholder_days (.ok []) (fun _ => .timeout) "b" "i" "t" "d"
    ["carousel"] "educational" 0 (by decide) rfl (by decide) (by decide)

/-! ## Fence removal on fence-free and fence-wrapped text -/

theorem removeFencesAux_nil (f : Nat) : removeFencesAux f [] = [] := by
  cases f <;> rfl

theorem removeFencesAux_cons (f : Nat) (c : Char) (rest : List Char)
    (h : ¬((c :: rest).take 3 = [bq, bq, bq])) :
    removeFencesAux (f + 1) (c :: rest) = c :: removeFencesAux f rest := by
  rw [removeFencesAux, if_neg h]

theorem hasTripleBq_cons_false (c : Char) (rest : List Char)
    (h : hasTripleBq (c :: rest) = false) :
    ¬((c :: rest).take 3 = [bq, bq, bq]) ∧ hasTripleBq rest = false := by
  rw [hasTripleBq, Bool.or_eq_false_iff, decide_eq_false_iff_not] at h
  exact h

theorem removeFencesAux_id (f : Nat) (cs : List Char) (h : hasTripleBq cs = false) :
    removeFencesAux f cs = cs := by
  induction f generalizing cs with
  | zero => rfl
  | succ f ih =>
    cases cs with
    | nil => rfl
    | cons c rest =>
      obtain ⟨h1, h2⟩ := hasTripleBq_cons_false c rest h
      rw [removeFencesAux_cons f c rest h1, ih rest h2]

theorem removeFences_id (cs : List Char) (h : hasTripleBq cs = false) :
    removeFences cs = cs :=
  removeFencesAux_id cs.length cs h

theorem take3_snoc_agree (c : Char) (xs : List Char) :
    (c :: (xs ++ [bq, bq, bq])).take 3 = (c :: (xs ++ [bq, bq])).take 3 := by
  cases xs with
  | nil => rfl
  | cons a t => cases t <;> rfl

theorem removeFencesAux_close (f : Nat) (xs : List Char) (hf : xs.length + 1 ≤ f)
    (h : hasTripleBq (xs ++ [bq, bq]) = false) :
    removeFencesAux f (xs ++ [bq, bq, bq]) = xs := by
  induction xs generalizing f with
  | nil =>
    obtain ⟨f', rfl⟩ : ∃ k, f = k + 1 := ⟨f - 1, by omega⟩
    show removeFencesAux (f' + 1) (bq :: [bq, bq]) = []
    rw [removeFencesAux, if_pos (by rfl), if_neg (by decide)]
    exact removeFencesAux_nil f'
  | cons c xs' ih =>
    obtain ⟨f', rfl⟩ : ∃ k, f = k + 1 := ⟨f - 1, by omega⟩
    rw [List.cons_append] at h ⊢
    obtain ⟨h1, h2⟩ := hasTripleBq_cons_false c (xs' ++ [bq, bq]) h
    have h0 : ¬((c :: (xs' ++ [bq, bq, bq])).take 3 = [bq, bq, bq]) := by
      rw [take3_snoc_agree]
      exact h1
    rw [removeFencesAux_cons f' c _ h0, ih f' (by simp at hf ⊢; omega) h2]

theorem removeFences_open_json (rest : List Char) :
    removeFences (bq :: bq :: bq :: 'j' :: 's' :: 'o' :: 'n' :: rest)
      = removeFencesAux (rest.length + 6) rest := by
  rw [removeFences]
  show removeFencesAux (rest.length + 6 + 1) (bq :: bq :: bq :: 'j' :: 's' :: 'o' :: 'n' :: rest)
    = removeFencesAux (rest.length + 6) rest
  rw [removeFencesAux, if_pos (by rfl), if_pos (by rfl)]
  rfl

theorem removeFences_open_plain (rest : List Char)
    (h : ¬(rest.take 4 = ['j', 's', 'o', 'n'])) :
    removeFences (bq :: bq :: bq :: rest) = removeFencesAux (rest.length + 2) rest := by
  rw [removeFences]
  show removeFencesAux (rest.length + 2 + 1) (bq :: bq :: bq :: rest)
    = removeFencesAux (rest.length + 2) rest
  rw [removeFencesAux, if_pos (by rfl)]
  show (if (rest.take 4 = ['j', 's', 'o', 'n']) then
      removeFencesAux (rest.length + 2) (rest.drop 4)
    else removeFencesAux (rest.length + 2) rest) = removeFencesAux (rest.length + 2) rest
  rw [if_neg h]

theorem hasTripleBq_snoc3 (ds : List Char) (h : hasTripleBq ds = false) :
    hasTripleBq (ds ++ ['\n', bq, bq]) = false := by
  induction ds with
  | nil => decide
  | cons c t ih =>
    obtain ⟨h1, h2⟩ := hasTripleBq_cons_false c t h
    rw [List.cons_append, hasTripleBq, Bool.or_eq_false_iff, decide_eq_false_iff_not]
    refine ⟨?_, ih h2⟩
    cases t with
    | nil => simp [bq]
    | cons a t' =>
      cases t' with
      | nil => simp [bq]
      | cons b t'' =>
        show ¬([c, a, b] = [bq, bq, bq])
        exact h1

theorem hasTripleBq_wrap (ds : List Char) (h : hasTripleBq ds = false) :
    hasTripleBq ('\n' :: ds ++ ['\n', bq, bq]) = false := by
  rw [List.cons_append, hasTripleBq, Bool.or_eq_false_iff, decide_eq_false_iff_not]
  refine ⟨?_, hasTripleBq_snoc3 ds h⟩
  cases ds with
  | nil => decide
  | cons a t =>
    cases t with
    | nil => simp [bq]
    | cons b t' => simp [bq]

/-! ## Edge characters of serialized values survive the strip passes -/

theorem edgeSafe_of_digit (c : Char) (h : isDigitC c = true) : edgeSafe c = true := by
  rw [isDigitC, Bool.and_eq_true, decide_eq_true_eq, decide_eq_true_eq] at h
  obtain ⟨h1, h2⟩ := h
  have hs : ∀ d : Char, d < '0' ∨ '9' < d → (c == d) = false := by
    intro d hd
    rw [beq_eq_false_iff_ne]
    rintro rfl
    rcases hd with hd | hd
    · exact absurd (lt_of_le_of_lt h1 hd) (lt_irrefl _)
    · exact absurd (lt_of_lt_of_le hd h2) (lt_irrefl _)
  rw [edgeSafe, pyIsSpace]
  rw [hs ' ' (Or.inl (by decide)), hs '\t' (Or.inl (by decide)), hs '\n' (Or.inl (by decide)),
    hs '\x0d' (Or.inl (by decide)), hs '\x0b' (Or.inl (by decide)),
    hs '\x0c' (Or.inl (by decide)), hs bq (Or.inr (by decide))]
  rfl

theorem edgeSafe_elim (c : Char) (h : edgeSafe c = true) :
    pyIsSpace c = false ∧ (c == bq) = false := by
  rw [edgeSafe, Bool.and_eq_true, Bool.not_eq_true', Bool.not_eq_true'] at h
  exact h

theorem dumpsL_head_safe (j : Json) (c : Char) (h : (Json.dumpsL j).head? = some c) :
    edgeSafe c = true := by
  cases j with
  | null =>
    rw [show Json.dumpsL .null = ['n', 'u', 'l', 'l'] from rfl] at h
    simp at h; rw [← h]; decide
  | bool b =>
    cases b with
    | true =>
      rw [show Json.dumpsL (.bool true) = ['t', 'r', 'u', 'e'] from rfl] at h
      simp at h; rw [← h]; decide
    | false =>
      rw [show Json.dumpsL (.bool false) = ['f', 'a', 'l', 's', 'e'] from rfl] at h
      simp at h; rw [← h]; decide
  | num i =>
    rw [show Json.dumpsL (.num i) = intChars i from rfl, intChars] at h
    by_cases hi : i < 0
    · rw [if_pos hi] at h; simp at h; rw [← h]; decide
    · rw [if_neg hi] at h
      obtain ⟨d, t, hdt, hdig, _⟩ := natChars_head i.natAbs
      rw [hdt] at h; simp at h; rw [← h]
      exact edgeSafe_of_digit d hdig
  | str s =>
    rw [show Json.dumpsL (.str s) = strLit s from rfl, strLit] at h
    simp at h; rw [← h]; decide
  | arr es =>
    rw [show Json.dumpsL (.arr es) = '[' :: (Json.dumpsElems es ++ [']']) from rfl] at h
    simp at h; rw [← h]; decide
  | obj ms =>
    rw [show Json.dumpsL (.obj ms) = obrace :: (Json.dumpsMembers ms ++ [cbrace]) from rfl] at h
    simp at h; rw [← h]; decide

theorem dumpsL_last_safe (j : Json) (c : Char) (h : (Json.dumpsL j).getLast? = some c) :
    edgeSafe c = true := by
  cases j with
  | null =>
    rw [show Json.dumpsL .null = ['n', 'u', 'l', 'l'] from rfl] at h
    rw [show (['n', 'u', 'l', 'l'] : List Char).getLast? = some 'l' from rfl] at h
    simp at h; rw [← h]; decide
  | bool b =>
    cases b with
    | true =>
      rw [show Json.dumpsL (.bool true) = ['t', 'r', 'u', 'e'] from rfl] at h
      rw [show (['t', 'r', 'u', 'e'] : List Char).getLast? = some 'e' from rfl] at h
      simp at h; rw [← h]; decide
    | false =>
      rw [show Json.dumpsL (.bool false) = ['f', 'a', 'l', 's', 'e'] from rfl] at h
      rw [show (['f', 'a', 'l', 's', 'e'] : List Char).getLast? = some 'e' from rfl] at h
      simp at h; rw [← h]; decide
  | num i =>
    rw [show Json.dumpsL (.num i) = intChars i from rfl, intChars] at h
    have hd : isDigitC (digitCh (i.natAbs % 10)) = true :=
      (digitCh_spec _ (Nat.mod_lt _ (by norm_num))).2.1
    by_cases hi : i < 0
    · rw [if_pos hi, natChars_unfold, ← List.cons_append, List.getLast?_concat] at h
      simp at h; rw [← h]
      exact edgeSafe_of_digit _ hd
    · rw [if_neg hi, natChars_unfold, List.getLast?_concat] at h
      simp at h; rw [← h]
      exact edgeSafe_of_digit _ hd
  | str s =>
    rw [show Json.dumpsL (.str s) = strLit s from rfl, strLit, ← List.cons_append,
      List.getLast?_concat] at h
    simp at h; rw [← h]; decide
  | arr es =>
    rw [show Json.dumpsL (.arr es) = '[' :: (Json.dumpsElems es ++ [']']) from rfl,
      ← List.cons_append, List.getLast?_concat] at h
    simp at h; rw [← h]; decide
  | obj ms =>
    rw [show Json.dumpsL (.obj ms) = obrace :: (Json.dumpsMembers ms ++ [cbrace]) from rfl,
      ← List.cons_append, List.getLast?_concat] at h
    simp at h; rw [← h]; decide

theorem dropWhile_head_safe (p : Char → Bool) (l : List Char)
    (h : ∀ c, l.head? = some c → p c = false) : l.dropWhile p = l := by
  cases l with
  | nil => rfl
  | cons c t => rw [List.dropWhile_cons, h c rfl]; rfl

theorem rdropWhileC_last_safe (p : Char → Bool) (l : List Char)
    (h : ∀ c, l.getLast? = some c → p c = false) : rdropWhileC p l = l := by
  rw [rdropWhileC,
    dropWhile_head_safe p l.reverse (fun c hc => h c (by rwa [List.head?_reverse] at hc)),
    List.reverse_reverse]

theorem pyStripL_safe (l : List Char) (hh : ∀ c, l.head? = some c → pyIsSpace c = false)
    (hl : ∀ c, l.getLast? = some c → pyIsSpace c = false) : pyStripL l = l := by
  rw [pyStripL, dropWhile_head_safe _ _ hh, rdropWhileC_last_safe _ _ hl]

/-- The cleaning chain is the identity on a fence-free serialized value. -/
theorem cleanRaw_dumpsL (j : Json) (h : hasTripleBq (Json.dumpsL j) = false) :
    cleanRaw (Json.dumpsL j) = Json.dumpsL j := by
  have hh : ∀ c, (Json.dumpsL j).head? = some c → pyIsSpace c = false :=
    fun c hc => (edgeSafe_elim c (dumpsL_head_safe j c hc)).1
  have hl : ∀ c, (Json.dumpsL j).getLast? = some c → pyIsSpace c = false :=
    fun c hc => (edgeSafe_elim c (dumpsL_last_safe j c hc)).1
  have hb : ∀ c, (Json.dumpsL j).getLast? = some c → (c == bq) = false :=
    fun c hc => (edgeSafe_elim c (dumpsL_last_safe j c hc)).2
  rw [cleanRaw, removeFences_id _ h, pyStripL_safe _ hh hl,
    rdropWhileC_last_safe _ _ hb, pyStripL_safe _ hh hl]

theorem toList_append (a b : String) : (a ++ b).toList = a.toList ++ b.toList := rfl

theorem stripPhase_wrapped (d : List Char) (hne : d ≠ [])
    (hh : ∀ c, d.head? = some c → edgeSafe c = true)
    (hl : ∀ c, d.getLast? = some c → edgeSafe c = true) :
    pyStripL (rdropWhileC (fun c => c == bq) (pyStripL ('\n' :: (d ++ ['\n'])))) = d := by
  have h1 : pyStripL ('\n' :: (d ++ ['\n'])) = d := by
    rw [pyStripL, List.dropWhile_cons, show pyIsSpace '\n' = true from rfl, if_pos rfl]
    have hdw : List.dropWhile pyIsSpace (d ++ ['\n']) = d ++ ['\n'] := by
      cases d with
      | nil => exact absurd rfl hne
      | cons c t =>
        rw [List.cons_append, List.dropWhile_cons, (edgeSafe_elim c (hh c rfl)).1]
        rfl
    rw [hdw, rdropWhileC, List.reverse_append]
    show (List.dropWhile pyIsSpace ('\n' :: d.reverse)).reverse = d
    rw [List.dropWhile_cons, show pyIsSpace '\n' = true from rfl, if_pos rfl,
      dropWhile_head_safe pyIsSpace d.reverse
        (fun c hc => (edgeSafe_elim c (hl c (by rwa [List.head?_reverse] at hc))).1),
      List.reverse_reverse]
  rw [h1,
    rdropWhileC_last_safe _ _ (fun c hc => (edgeSafe_elim c (hl c hc)).2),
    pyStripL_safe _ (fun c hc => (edgeSafe_elim c (hh c hc)).1)
      (fun c hc => (edgeSafe_elim c (hl c hc)).1)]

/-- The cleaning chain maps a json-tagged fence-wrapped serialized value back
to the serialized value. -/
theorem cleanRaw_json_fence (j : Json) (h : hasTripleBq (Json.dumpsL j) = false) :
    cleanRaw (bq :: bq :: bq :: 'j' :: 's' :: 'o' :: 'n' :: '\n' ::
        (Json.dumpsL j ++ ['\n', bq, bq, bq]))
      = Json.dumpsL j := by
  have hrf : removeFences (bq :: bq :: bq :: 'j' :: 's' :: 'o' :: 'n' :: '\n' ::
      (Json.dumpsL j ++ ['\n', bq, bq, bq])) = '\n' :: (Json.dumpsL j ++ ['\n']) := by
    rw [removeFences_open_json]
    have hx : '\n' :: (Json.dumpsL j ++ ['\n', bq, bq, bq])
        = ('\n' :: (Json.dumpsL j ++ ['\n'])) ++ [bq, bq, bq] := by simp
    rw [hx]
    exact removeFencesAux_close _ _ (by simp)
      (by simpa using hasTripleBq_wrap (Json.dumpsL j) h)
  rw [cleanRaw, hrf]
  exact stripPhase_wrapped (Json.dumpsL j) (dumpsL_ne_nil j)
    (dumpsL_head_safe j) (dumpsL_last_safe j)

/-- The cleaning chain maps an untagged fence-wrapped serialized value back to
the serialized value. -/
theorem cleanRaw_plain_fence (j : Json) (h : hasTripleBq (Json.dumpsL j) = false) :
    cleanRaw (bq :: bq :: bq :: '\n' :: (Json.dumpsL j ++ ['\n', bq, bq, bq]))
      = Json.dumpsL j := by
  have hrf : removeFences (bq :: bq :: bq :: '\n' ::
      (Json.dumpsL j ++ ['\n', bq, bq, bq])) = '\n' :: (Json.dumpsL j ++ ['\n']) := by
    rw [removeFences_open_plain _ (by simp)]
    have hx : '\n' :: (Json.dumpsL j ++ ['\n', bq, bq, bq])
        = ('\n' :: (Json.dumpsL j ++ ['\n'])) ++ [bq, bq, bq] := by simp
    rw [hx]
    exact removeFencesAux_close _ _ (by simp)
      (by simpa using hasTripleBq_wrap (Json.dumpsL j) h)
  rw [cleanRaw, hrf]
  exact stripPhase_wrapped (Json.dumpsL j) (dumpsL_ne_nil j)
    (dumpsL_head_safe j) (dumpsL_last_safe j)

/-- `_extract_json` succeeds on the direct-parse path. -/
theorem extract_json_of_loads (raw : String) (j : Json)
    (h : loadsL (cleanRaw raw.toList) = some j) :
    ContentAgent._extract_json raw = .ok j := by
  rw [ContentAgent._extract_json]
  simp only [h]

/-- `_extract_json` succeeds on the brace-slice fallback path. -/
theorem extract_json_of_slice (raw : String) (j : Json) (sub : List Char)
    (h1 : loadsL (cleanRaw raw.toList) = none)
    (h2 : braceSlice (cleanRaw raw.toList) = some sub)
    (h3 : loadsL sub = some j) :
    ContentAgent._extract_json raw = .ok j := by
  rw [ContentAgent._extract_json]
  simp only [h1, h2, h3]

/-- `_extract_json` raises `ValueError` when both paths fail. -/
theorem extract_json_of_fail (raw : String)
    (h1 : loadsL (cleanRaw raw.toList) = none)
    (h2 : (braceSlice (cleanRaw raw.toList)).bind loadsL = none) :
    ContentAgent._extract_json raw = .error (.valueError (extractErrMsg raw)) := by
  rw [ContentAgent._extract_json]
  cases hb : braceSlice (cleanRaw raw.toList) with
  | none => simp only [h1, hb]
  | some sub =>
    rw [hb] at h2
    simp only [Option.some_bind] at h2
    simp only [h1, hb, h2]

/-- Counterexample to C5 as stated: a record whose serialized text itself
contains a three-backquote run is corrupted by the fence-removal pass, and the
normalizer returns a different record. -/
theorem claim_C5_counterexample :
    ContentAgent._extract_json (Json.dumps (.obj [("note", .str "a```b")]))
      = .ok (.obj [("note", .str "ab")])
    ∧ Json.obj [("note", Json.str "ab")] ≠ Json.obj [("note", Json.str "a```b")] := by
  constructor
  · decide
  · decide

/-- C5 (amended): for every record whose serialized text contains no
three-backquote run, serializing, optionally wrapping the text in a
code fence (tagged or untagged), and passing the result through
`_extract_json` returns the original record. -/
theorem claim_C5_normalizer_roundtrip (j : Json) (h : noFence (Json.dumps j) = true) :
    ContentAgent._extract_json (Json.dumps j) = .ok j
    ∧ ContentAgent._extract_json ("```json\n" ++ Json.dumps j ++ "\n```") = .ok j
    ∧ ContentAgent._extract_json ("```\n" ++ Json.dumps j ++ "\n```") = .ok j := by
  have h' : hasTripleBq (Json.dumpsL j) = false := by
    rw [noFence, Json.dumps, toList_mk, Bool.not_eq_true'] at h
    exact h
  refine ⟨?_, ?_, ?_⟩
  · refine extract_json_of_loads _ j ?_
    have ht : (Json.dumps j).toList = Json.dumpsL j := toList_mk _
    rw [ht, cleanRaw_dumpsL j h']
    exact loadsL_dumpsL j
  · refine extract_json_of_loads _ j ?_
    have ht : ("```json\n" ++ Json.dumps j ++ "\n```").toList
        = bq :: bq :: bq :: 'j' :: 's' :: 'o' :: 'n' :: '\n' ::
          (Json.dumpsL j ++ ['\n', bq, bq, bq]) := rfl
    rw [ht, cleanRaw_json_fence j h']
    exact loadsL_dumpsL j
  · refine extract_json_of_loads _ j ?_
    have ht : ("```\n" ++ Json.dumps j ++ "\n```").toList
        = bq :: bq :: bq :: '\n' :: (Json.dumpsL j ++ ['\n', bq, bq, bq]) := rfl
    rw [ht, cleanRaw_plain_fence j h']
    exact loadsL_dumpsL j

/-- Witness for C5: a concrete fence-free record round-trips through all
three wrappings. -/
theorem claim_C5_normalizer_roundtrip_witness :
    noFence (Json.dumps (.obj [("a", .num 1), ("b", .arr [.str "x", .bool true])])) = true
    ∧ (ContentAgent._extract_json
          (Json.dumps (.obj [("a", .num 1), ("b", .arr [.str "x", .bool true])]))
        = .ok (.obj [("a", .num 1), ("b", .arr [.str "x", .bool true])])
      ∧ ContentAgent._extract_json ("```json\n"
            ++ Json.dumps (.obj [("a", .num 1), ("b", .arr [.str "x", .bool true])]) ++ "\n```")
        = .ok (.obj [("a", .num 1), ("b", .arr [.str "x", .bool true])])
      ∧ ContentAgent._extract_json ("```\n"
            ++ Json.dumps (.obj [("a", .num 1), ("b", .arr [.str "x", .bool true])]) ++ "\n```")
        = .ok (.obj [("a", .num 1), ("b", .arr [.str "x", .bool true])])) :=
  ⟨by decide,
    claim_C5_normalizer_roundtrip (.obj [("a", .num 1), ("b", .arr [.str "x", .bool true])])
      (by decide)⟩

/-! ## The brace-slice fallback on prose-embedded payloads -/

theorem dropWhile_append_safe (p : Char → Bool) (a b : List Char)
    (hb : ∀ c, b.head? = some c → p c = false) :
    (a ++ b).dropWhile p = a.dropWhile p ++ b := by
  induction a with
  | nil => simpa using dropWhile_head_safe p b hb
  | cons x xs ih =>
    rw [List.cons_append, List.dropWhile_cons, List.dropWhile_cons]
    by_cases hx : p x = true
    · rw [if_pos hx, if_pos hx, ih]
    · rw [if_neg hx, if_neg hx, List.cons_append]

theorem dropWhile_append_all (p : Char → Bool) (a b : List Char)
    (ha : ∀ c ∈ a, p c = true) :
    (a ++ b).dropWhile p = b.dropWhile p := by
  induction a with
  | nil => rfl
  | cons x xs ih =>
    rw [List.cons_append, List.dropWhile_cons, if_pos (ha x (by simp))]
    exact ih (fun c hc => ha c (by simp [hc]))

theorem getLast?_append_right (a b : List Char) (hb : b ≠ []) :
    (a ++ b).getLast? = b.getLast? := by
  rw [← List.head?_reverse, List.reverse_append, ← List.head?_reverse]
  cases hbr : b.reverse with
  | nil => exact absurd (by simpa using congrArg List.reverse hbr) hb
  | cons x t => rfl

theorem rdrop_append_safe (p : Char → Bool) (a b : List Char)
    (ha : ∀ c, a.getLast? = some c → p c = false) :
    rdropWhileC p (a ++ b) = a ++ rdropWhileC p b := by
  rw [rdropWhileC, rdropWhileC, List.reverse_append,
    dropWhile_append_safe p b.reverse a.reverse
      (fun c hc => ha c (by rwa [List.head?_reverse] at hc)),
    List.reverse_append, List.reverse_reverse]

theorem rdrop_append_all (p : Char → Bool) (a b : List Char)
    (hb : ∀ c ∈ b, p c = true) :
    rdropWhileC p (a ++ b) = rdropWhileC p a := by
  rw [rdropWhileC, rdropWhileC, List.reverse_append,
    dropWhile_append_all p b.reverse a.reverse (fun c hc => hb c (by simpa using hc))]

theorem mem_of_mem_rdropWhileC (p : Char → Bool) (l : List Char) (c : Char)
    (hc : c ∈ rdropWhileC p l) : c ∈ l := by
  rw [rdropWhileC] at hc
  have hc' : c ∈ l.reverse.dropWhile p := by simpa using hc
  exact List.mem_reverse.mp ((List.dropWhile_sublist _).subset hc')

theorem mem_of_mem_dropWhileC (p : Char → Bool) (l : List Char) (c : Char)
    (hc : c ∈ l.dropWhile p) : c ∈ l :=
  (List.dropWhile_sublist _).subset hc

/-- On fence-free text made of a prose prefix without an opening brace, a
serialized mapping, and a prose suffix without a closing brace, the cleaning
chain keeps the serialized mapping intact between (possibly trimmed) prose
parts. -/
theorem cleanRaw_embed (fields : List (String × Json)) (p s : List Char)
    (hfence : hasTripleBq (p ++ (Json.dumpsL (.obj fields) ++ s)) = false)
    (hp : obrace ∉ p) (hs : cbrace ∉ s) :
    ∃ p2 s2, cleanRaw (p ++ (Json.dumpsL (.obj fields) ++ s))
        = p2 ++ (Json.dumpsL (.obj fields) ++ s2)
      ∧ obrace ∉ p2 ∧ cbrace ∉ s2 := by
  have hd : Json.dumpsL (.obj fields) = obrace :: (Json.dumpsMembers fields ++ [cbrace]) := rfl
  have hdh : ∀ (t : List Char) (c : Char),
      (Json.dumpsL (.obj fields) ++ t).head? = some c → pyIsSpace c = false := by
    intro t c hc
    rw [hd, List.cons_append] at hc
    simp only [List.head?_cons, Option.some.injEq] at hc
    rw [← hc]; decide
  have hdl : (Json.dumpsL (.obj fields)).getLast? = some cbrace := by
    rw [hd, ← List.cons_append, List.getLast?_concat]
  have hgl : ∀ (q : List Char) (c : Char),
      (q ++ Json.dumpsL (.obj fields)).getLast? = some c → c = cbrace := by
    intro q c hc
    rw [getLast?_append_right q _ (dumpsL_ne_nil _), hdl] at hc
    simpa using hc.symm
  have estrip : ∀ (q t : List Char),
      pyStripL (q ++ (Json.dumpsL (.obj fields) ++ t))
        = q.dropWhile pyIsSpace ++ (Json.dumpsL (.obj fields) ++ rdropWhileC pyIsSpace t) := by
    intro q t
    rw [pyStripL, dropWhile_append_safe _ _ _ (hdh t), ← List.append_assoc,
      rdrop_append_safe pyIsSpace _ t
        (fun c hc => by rw [hgl _ c hc]; decide),
      List.append_assoc]
  have ebq : ∀ (q t : List Char),
      rdropWhileC (fun c => c == bq) (q ++ (Json.dumpsL (.obj fields) ++ t))
        = q ++ (Json.dumpsL (.obj fields) ++ rdropWhileC (fun c => c == bq) t) := by
    intro q t
    rw [← List.append_assoc,
      rdrop_append_safe _ _ t (fun c hc => by rw [hgl _ c hc]; decide),
      List.append_assoc]
  rw [cleanRaw, removeFences_id _ hfence, estrip, ebq, estrip]
  refine ⟨(p.dropWhile pyIsSpace).dropWhile pyIsSpace,
    rdropWhileC pyIsSpace (rdropWhileC (fun c => c == bq) (rdropWhileC pyIsSpace s)),
    rfl, ?_, ?_⟩
  · intro hmem
    exact hp (mem_of_mem_dropWhileC _ _ _ (mem_of_mem_dropWhileC _ _ _ hmem))
  · intro hmem
    exact hs (mem_of_mem_rdropWhileC _ _ _
      (mem_of_mem_rdropWhileC _ _ _ (mem_of_mem_rdropWhileC _ _ _ hmem)))

/-- The greedy brace-search pattern applied to trimmed prose around a
serialized mapping matches exactly the serialized mapping. -/
theorem braceSlice_embed (fields : List (String × Json)) (p2 s2 : List Char)
    (hp2 : obrace ∉ p2) (hs2 : cbrace ∉ s2) :
    braceSlice (p2 ++ (Json.dumpsL (.obj fields) ++ s2))
      = some (Json.dumpsL (.obj fields)) := by
  have hd : Json.dumpsL (.obj fields) = obrace :: (Json.dumpsMembers fields ++ [cbrace]) := rfl
  have e1 : (p2 ++ (Json.dumpsL (.obj fields) ++ s2)).dropWhile (fun c => !(c == obrace))
      = Json.dumpsL (.obj fields) ++ s2 := by
    rw [dropWhile_append_all _ p2 _ (fun c hc => by
        simp only [Bool.not_eq_true']
        exact beq_eq_false_iff_ne.mpr (fun he => hp2 (he ▸ hc)))]
    rw [hd, List.cons_append, List.dropWhile_cons,
      show (!(obrace == obrace)) = false from by simp]
    rfl
  have e2 : rdropWhileC (fun c => !(c == cbrace)) (Json.dumpsL (.obj fields) ++ s2)
      = Json.dumpsL (.obj fields) := by
    rw [rdrop_append_all _ _ s2 (fun c hc => by
        simp only [Bool.not_eq_true']
        exact beq_eq_false_iff_ne.mpr (fun he => hs2 (he ▸ hc)))]
    rw [rdropWhileC_last_safe _ _ (fun c hc => by
      rw [hd, ← List.cons_append, List.getLast?_concat] at hc
      simp only [Option.some.injEq] at hc
      rw [← hc]; simp)]
  simp only [braceSlice, e1, e2]
  rw [hd]
  rfl

/-- C6: when the direct parse of the cleaned text fails, `_extract_json`
parses exactly the substring from the first opening brace to the last closing
brace: a serialized mapping embedded in fence-free prose (prose prefix without
an opening brace, suffix without a closing brace) is recovered, and when that
fallback also fails the raised `ValueError` carries the first 500 characters
of the original text. -/
theorem claim_C6_normalizer_fallback (fields : List (String × Json)) (p s : List Char)
    (raw : String) :
    (hasTripleBq (p ++ (Json.dumpsL (.obj fields) ++ s)) = false →
      obrace ∉ p → cbrace ∉ s →
      loadsL (cleanRaw (p ++ (Json.dumpsL (.obj fields) ++ s))) = none →
      ContentAgent._extract_json (String.mk (p ++ (Json.dumpsL (.obj fields) ++ s)))
        = .ok (.obj fields))
    ∧ (loadsL (cleanRaw raw.toList) = none →
      (braceSlice (cleanRaw raw.toList)).bind loadsL = none →
      ContentAgent._extract_json raw
        = .error (.valueError ("Could not parse model output as JSON:\n"
            ++ String.mk (raw.toList.take 500)))) := by
  constructor
  · intro hfence hp hs hfail
    obtain ⟨p2, s2, hclean, hp2, hs2⟩ := cleanRaw_embed fields p s hfence hp hs
    refine extract_json_of_slice _ (.obj fields) (Json.dumpsL (.obj fields)) ?_ ?_ ?_
    · rw [toList_mk]; exact hfail
    · rw [toList_mk, hclean]
      exact braceSlice_embed fields p2 s2 hp2 hs2
    · exact loadsL_dumpsL _
  · intro h1 h2
    rw [extract_json_of_fail raw h1 h2, extractErrMsg]

/-- Witness for C6: a mapping inside prose is recovered by the fallback, and
plain prose with no braces raises the diagnostic `ValueError`. -/
theorem claim_C6_normalizer_fallback_witness :
    (ContentAgent._extract_json (String.mk ("Here is the JSON: ".toList
        ++ (Json.dumpsL (.obj [("a", .num 1)]) ++ " Thanks!".toList)))
      = .ok (.obj [("a", .num 1)]))
    ∧ (ContentAgent._extract_json "no json here"
      = .error (.valueError ("Could not parse model output as JSON:\n"
          ++ String.mk (("no json here" : String).toList.take 500)))) :=
  ⟨(claim_C6_normalizer_fallback [("a", .num 1)] "Here is the JSON: ".toList
      " Thanks!".toList "no json here").1 (by decide) (by decide) (by decide) (by decide),
    (claim_C6_normalizer_fallback [("a", .num 1)] "Here is the JSON: ".toList
      " Thanks!".toList "no json here").2 (by decide) (by decide)⟩
